import Mathlib

/-!
Verification of the schema-registry core of the `async-graphql` repository.

The Rust source is shallowly embedded:
* `IndexMap<String, V>` (insertion-ordered map) is an association list
  `List (String × V)` whose operations mirror `indexmap`'s semantics:
  `insert` replaces the value in place when the key is present and appends
  otherwise; iteration order is list order.
* Panics (`unwrap`, `unreachable!`, slice out of bounds) are modelled by
  `Option`: a `none` result stands for a panic of the Rust code.
* Function-valued fields of the descriptors (`MetaScalar::is_valid`,
  `MetaInputValue::validator`) are opaque function objects in the source and
  are not carried by the embedding; no claim mentions them.
-/

set_option autoImplicit false

namespace AsyncGraphql

/-! ## Insertion-ordered maps (embedding of `indexmap::IndexMap`) -/

/-- Association-list model of `IndexMap<String, α>`; list order is iteration
order. -/
abbrev IMap (α : Type) := List (String × α)

/-- Key membership test (`IndexMap::contains_key`). -/
def containsKey {α : Type} (m : IMap α) (k : String) : Bool :=
  m.any (fun p => p.1 = k)

/-- Value lookup (`IndexMap::get`): first entry with the key. -/
def lookupIM {α : Type} : IMap α → String → Option α
  | [], _ => none
  | p :: rest, k => if p.1 = k then some p.2 else lookupIM rest k

/-- Insertion (`IndexMap::insert`): replace in place when the key is present,
append otherwise. -/
def insertIM {α : Type} : IMap α → String → α → IMap α
  | [], k, v => [(k, v)]
  | p :: rest, k, v => if p.1 = k then (k, v) :: rest else p :: insertIM rest k v

/-- Assignment through `get_mut(k).unwrap()`: replace the value at an existing
key; `none` models the `unwrap` panic when the key is absent. -/
def assignIM {α : Type} : IMap α → String → α → Option (IMap α)
  | [], _, _ => none
  | p :: rest, k, v =>
    if p.1 = k then some ((k, v) :: rest)
    else (assignIM rest k v).map (fun m => p :: m)

/-- Number of entries stored under a key (1 for a well-formed map). -/
def countKey {α : Type} (m : IMap α) (k : String) : Nat :=
  (m.filter (fun p => p.1 = k)).length

/-- Extension (`IndexMap::extend`): repeated insertion. -/
def extendIM {α : Type} (m : IMap α) (l : IMap α) : IMap α :=
  l.foldl (fun acc p => insertIM acc p.1 p.2) m

/-- Keys of the entries, in iteration order. -/
def keysIM {α : Type} (m : IMap α) : List String := m.map (fun p => p.1)

theorem lookupIM_isSome_of_containsKey {α : Type} (m : IMap α) (k : String)
    (h : containsKey m k = true) : ∃ v, lookupIM m k = some v := by
  induction m with
  | nil => simp [containsKey] at h
  | cons p rest ih =>
    by_cases hk : p.1 = k
    · exact ⟨p.2, by simp [lookupIM, hk]⟩
    · have : containsKey rest k = true := by
        simpa [containsKey, hk] using h
      obtain ⟨v, hv⟩ := ih this
      exact ⟨v, by simp [lookupIM, hk, hv]⟩

theorem containsKey_of_lookupIM {α : Type} (m : IMap α) (k : String) (v : α)
    (h : lookupIM m k = some v) : containsKey m k = true := by
  induction m with
  | nil => simp [lookupIM] at h
  | cons p rest ih =>
    by_cases hk : p.1 = k
    · simp [containsKey, hk]
    · simp only [lookupIM, hk, if_false] at h
      simpa [containsKey, hk] using ih h

theorem lookupIM_insertIM_self {α : Type} (m : IMap α) (k : String) (v : α) :
    lookupIM (insertIM m k v) k = some v := by
  induction m with
  | nil => simp [insertIM, lookupIM]
  | cons p rest ih =>
    by_cases hk : p.1 = k
    · simp [insertIM, hk, lookupIM]
    · simp [insertIM, hk, lookupIM, ih]

theorem lookupIM_insertIM_ne {α : Type} (m : IMap α) (k k' : String) (v : α)
    (h : k' ≠ k) : lookupIM (insertIM m k v) k' = lookupIM m k' := by
  have hkk : ¬ k = k' := fun hh => h hh.symm
  induction m with
  | nil => simp [insertIM, lookupIM, hkk]
  | cons p rest ih =>
    by_cases hk : p.1 = k
    · subst hk
      simp [insertIM, lookupIM, hkk]
    · simp [insertIM, hk, lookupIM, ih]

theorem countKey_insertIM_fresh {α : Type} (m : IMap α) (k : String) (v : α)
    (h : containsKey m k = false) : countKey (insertIM m k v) k = countKey m k + 1 := by
  induction m with
  | nil => simp [insertIM, countKey]
  | cons p rest ih =>
    by_cases hk : p.1 = k
    · simp [containsKey, hk] at h
    · have hrest : containsKey rest k = false := by
        have := h
        simp only [containsKey, List.any_cons, Bool.or_eq_false_iff] at this
        exact this.2
      simp [insertIM, hk, countKey, List.filter] at ih ⊢
      exact ih hrest

theorem countKey_eq_zero_of_not_containsKey {α : Type} (m : IMap α) (k : String)
    (h : containsKey m k = false) : countKey m k = 0 := by
  induction m with
  | nil => simp [countKey]
  | cons p rest ih =>
    simp only [containsKey, List.any_cons, Bool.or_eq_false_iff] at h
    simp [countKey, List.filter, h.1]
    have := ih (by simp [containsKey, h.2])
    simpa [countKey, h.1] using this

theorem assignIM_isSome_of_containsKey {α : Type} (m : IMap α) (k : String) (v : α)
    (h : containsKey m k = true) : ∃ m', assignIM m k v = some m' := by
  induction m with
  | nil => simp [containsKey] at h
  | cons p rest ih =>
    by_cases hk : p.1 = k
    · exact ⟨(k, v) :: rest, by simp [assignIM, hk]⟩
    · have : containsKey rest k = true := by simpa [containsKey, hk] using h
      obtain ⟨m', hm'⟩ := ih this
      exact ⟨p :: m', by simp [assignIM, hk, hm']⟩

theorem lookupIM_assignIM_self {α : Type} (m m' : IMap α) (k : String) (v : α)
    (h : assignIM m k v = some m') : lookupIM m' k = some v := by
  induction m generalizing m' with
  | nil => simp [assignIM] at h
  | cons p rest ih =>
    by_cases hk : p.1 = k
    · simp only [assignIM, hk, if_true, Option.some_inj] at h
      subst h
      simp [lookupIM]
    · simp only [assignIM, hk, if_false, Option.map_eq_some'] at h
      obtain ⟨m'', hm'', rfl⟩ := h
      simp [lookupIM, hk, ih m'' hm'']

theorem lookupIM_assignIM_ne {α : Type} (m m' : IMap α) (k k' : String) (v : α)
    (h : assignIM m k v = some m') (hne : k' ≠ k) :
    lookupIM m' k' = lookupIM m k' := by
  have hkk : ¬ k = k' := fun hh => hne hh.symm
  induction m generalizing m' with
  | nil => simp [assignIM] at h
  | cons p rest ih =>
    by_cases hk : p.1 = k
    · simp only [assignIM, hk, if_true, Option.some_inj] at h
      subst h
      simp [lookupIM, hkk, hk]
    · simp only [assignIM, hk, if_false, Option.map_eq_some'] at h
      obtain ⟨m'', hm'', rfl⟩ := h
      by_cases hk' : p.1 = k'
      · simp [lookupIM, hk']
      · simp [lookupIM, hk', ih m'' hm'']

theorem countKey_assignIM {α : Type} (m m' : IMap α) (k : String) (v : α)
    (h : assignIM m k v = some m') : countKey m' k = countKey m k := by
  induction m generalizing m' with
  | nil => simp [assignIM] at h
  | cons p rest ih =>
    by_cases hk : p.1 = k
    · simp only [assignIM, hk, if_true, Option.some_inj] at h
      subst h
      simp [countKey, List.filter, hk]
    · simp only [assignIM, hk, if_false, Option.map_eq_some'] at h
      obtain ⟨m'', hm'', rfl⟩ := h
      simp [countKey, List.filter, hk] at ih ⊢
      simpa [countKey, hk] using ih m'' hm''

/-! ## Meta descriptors (embedding of `src/registry/mod.rs`, lines 88-260)

The function-valued members (`MetaScalar::is_valid`, `MetaInputValue::validator`)
are opaque function objects in the source and are omitted here; no claim
mentions them. -/

/-- Cache-control policy. Modelled from the spec: `cache_control.rs` is not
under `src/`; the spec (§3.2) describes two fields, a `max_age` in seconds and
a `public` flag, defaulting to unset age (0) and public. -/
structure CacheControl where
  max_age : Nat
  public : Bool
deriving DecidableEq

instance : Inhabited CacheControl := ⟨⟨0, true⟩⟩

/-- Embedding of `MetaInputValue` (registry/mod.rs:89-95); `validator` omitted. -/
structure MetaInputValue where
  name : String
  description : Option String
  ty : String
  default_value : Option String
deriving DecidableEq

/-- Embedding of `MetaField` (registry/mod.rs:97-108). -/
structure MetaField where
  name : String
  description : Option String
  args : IMap MetaInputValue
  ty : String
  deprecation : Option String
  cache_control : CacheControl
  external : Bool
  requires : Option String
  provides : Option String
deriving DecidableEq

/-- Embedding of `MetaEnumValue` (registry/mod.rs:110-115). -/
structure MetaEnumValue where
  name : String
  description : Option String
  deprecation : Option String
deriving DecidableEq

/-- Embedding of `MetaScalar` (registry/mod.rs:117-121); `is_valid` omitted. -/
structure MetaScalar where
  name : String
  description : Option String
deriving DecidableEq

/-- Embedding of `MetaObject` (registry/mod.rs:123-130). The source field
`extends` is a Lean keyword and is embedded as `extendsFlag`. -/
structure MetaObject where
  name : String
  description : Option String
  fields : IMap MetaField
  cache_control : CacheControl
  extendsFlag : Bool
  keys : Option (List String)
deriving DecidableEq

/-- Embedding of `MetaInterface` (registry/mod.rs:132-139); the `IndexSet` of
possible types is a list in iteration order. -/
structure MetaInterface where
  name : String
  description : Option String
  fields : IMap MetaField
  possible_types : List String
  extendsFlag : Bool
  keys : Option (List String)
deriving DecidableEq

/-- Embedding of `MetaUnion` (registry/mod.rs:141-145). -/
structure MetaUnion where
  name : String
  description : Option String
  possible_types : List String
deriving DecidableEq

/-- Embedding of `MetaEnum` (registry/mod.rs:147-151). -/
structure MetaEnum where
  name : String
  description : Option String
  enum_values : IMap MetaEnumValue
deriving DecidableEq

/-- Embedding of `MetaInputObject` (registry/mod.rs:153-157). -/
structure MetaInputObject where
  name : String
  description : Option String
  input_fields : IMap MetaInputValue
deriving DecidableEq

/-- Embedding of `MetaType` (registry/mod.rs:159-166). -/
inductive MetaType where
  | Scalar (s : MetaScalar)
  | Object (o : MetaObject)
  | Interface (i : MetaInterface)
  | Union (u : MetaUnion)
  | Enum (e : MetaEnum)
  | InputObject (io : MetaInputObject)
deriving DecidableEq

/-- Embedding of `MetaDirective` (registry/mod.rs:246-251); directive locations
are opaque enum values embedded as strings. -/
structure MetaDirective where
  name : String
  description : Option String
  locations : List String
  args : IMap MetaInputValue
deriving DecidableEq

/-- Embedding of `Registry` (registry/mod.rs:253-260). The source `HashMap`s
for directives and implements are embedded as association lists (the claims
never depend on their iteration order). -/
structure Registry where
  types : IMap MetaType
  directives : IMap MetaDirective
  implements : IMap (List String)
  query_type : String
  mutation_type : Option String
  subscription_type : Option String
deriving DecidableEq

/-- The fake `Object` inserted by `create_type` before the builder runs
(registry/mod.rs:270-280). -/
def placeholderType : MetaType :=
  .Object ⟨"", none, [], default, false, none⟩

/-- Embedding of `Registry::create_type` (registry/mod.rs:263-285).

The type parameter `T` is represented by its `type_name()` (`name`) and
`qualified_type_name()` (`qual`); the builder `f` is a state transformer that
may itself call `create_type` (Rust's `&mut Registry` threading becomes
explicit state passing). A `none` result models a panic of the final
`get_mut(..).unwrap()` assignment. -/
def Registry.create_type (name qual : String)
    (f : Registry → Option (Registry × MetaType)) (reg : Registry) :
    Option (Registry × String) :=
  if containsKey reg.types name then some (reg, qual)
  else
    match f { reg with types := insertIM reg.types name placeholderType } with
    | none => none
    | some (reg2, ty) =>
      match assignIM reg2.types name ty with
      | none => none
      | some ts => some ({ reg2 with types := ts }, qual)

theorem containsKey_of_countKey_pos {α : Type} (m : IMap α) (k : String)
    (h : 0 < countKey m k) : containsKey m k = true := by
  induction m with
  | nil => simp [countKey] at h
  | cons p rest ih =>
    by_cases hk : p.1 = k
    · simp [containsKey, hk]
    · simp only [countKey, List.filter_cons, hk, decide_False] at h
      simp [containsKey, hk]
      have := ih (by simpa [countKey] using h)
      simpa [containsKey] using this

/-- Embedding of the `children: [Node!]!` field of the spec's cycle-safety
scenario (spec §8 scenario 4). -/
def childrenField : MetaField :=
  ⟨"children", none, [], "[Node!]!", none, default, false, none, none⟩

/-- The descriptor the `Node` builder returns. -/
def nodeObject : MetaType :=
  .Object ⟨"Node", none, [("children", childrenField)], default, false, none⟩

/-- Builder of the self-referential object `Node { children: [Node!]! }`: it
recursively calls `create_type` for `Node` itself (as registering the field
type `[Node!]!` does), and relies on the placeholder for termination. The fuel
argument only bounds the recursion depth Lean requires for a well-founded
definition; with the placeholder present the inner call is memoized and the
fuel is never consumed past one level. -/
def nodeBuilder : Nat → Registry → Option (Registry × MetaType)
  | 0, _ => none
  | k + 1, reg =>
    match Registry.create_type "Node" "Node!" (nodeBuilder k) reg with
    | none => none
    | some (reg', _) => some (reg', nodeObject)

/-- The empty registry at the start of bootstrap. -/
def emptyRegistry : Registry := ⟨[], [], [], "Query", none, none⟩

/-- C1: if a type named `name` is not yet registered and its builder `f`
(which may recursively call `create_type` for `name`; such a call hits the
placeholder and is memoized) completes keeping exactly one entry under `name`,
then `create_type` terminates with the builder's registry in which the catalog
holds exactly one entry under `name`, and that entry is the descriptor the
outermost builder returned — the placeholder is not observable afterwards.
(Termination itself is inherent to the embedding: `create_type` is a total
function of the builder.) -/
theorem create_type_cycle_safe (name qual : String)
    (f : Registry → Option (Registry × MetaType)) (reg reg2 : Registry) (ty : MetaType)
    (hfresh : containsKey reg.types name = false)
    (hf : f { reg with types := insertIM reg.types name placeholderType } = some (reg2, ty))
    (hcnt : countKey reg2.types name = 1) :
    ∃ ts, Registry.create_type name qual f reg = some ({ reg2 with types := ts }, qual) ∧
      countKey ts name = 1 ∧ lookupIM ts name = some ty := by
  have hpos : containsKey reg2.types name = true :=
    containsKey_of_countKey_pos reg2.types name (by rw [hcnt]; exact Nat.one_pos)
  obtain ⟨ts, hts⟩ := assignIM_isSome_of_containsKey reg2.types name ty hpos
  refine ⟨ts, ?_, ?_, ?_⟩
  · simp [Registry.create_type, hfresh, hf, hts]
  · rw [countKey_assignIM reg2.types ts name ty hts, hcnt]
  · exact lookupIM_assignIM_self reg2.types ts name ty hts

/-- Witness for C1: registering the self-referential `Node` object in the
empty registry, with a builder that really re-enters `create_type "Node"`. -/
theorem create_type_cycle_safe_witness :
    ∃ ts, Registry.create_type "Node" "Node!" (nodeBuilder 1) emptyRegistry =
      some ({ { emptyRegistry with
                  types := [("Node", placeholderType)] } with types := ts }, "Node!") ∧
      countKey ts "Node" = 1 ∧ lookupIM ts "Node" = some nodeObject :=
  create_type_cycle_safe "Node" "Node!" (nodeBuilder 1) emptyRegistry
    { emptyRegistry with types := [("Node", placeholderType)] } nodeObject
    (by decide) (by decide) (by decide)

/-- C2: when `name` already keys the catalog, `create_type` returns the
registry completely unchanged (all fields: types, directives, implements and
root type names) together with `T::qualified_type_name()`, and the builder is
never invoked — the result does not depend on it at all. -/
theorem create_type_memoized (name qual : String)
    (f : Registry → Option (Registry × MetaType)) (reg : Registry)
    (h : containsKey reg.types name = true) :
    Registry.create_type name qual f reg = some (reg, qual) ∧
      ∀ g, Registry.create_type name qual g reg = Registry.create_type name qual f reg := by
  refine ⟨?_, fun g => ?_⟩
  · simp [Registry.create_type, h]
  · simp [Registry.create_type, h]

/-- A registry that already holds a type named `Foo`. -/
def fooRegistry : Registry :=
  ⟨[("Foo", .Scalar ⟨"Foo", none⟩)], [], [], "Query", none, none⟩

/-- Witness for C2 at a registry that already contains `Foo`, with a builder
that would panic if it were ever invoked. -/
theorem create_type_memoized_witness :
    Registry.create_type "Foo" "Foo!" (fun _ => none) fooRegistry =
        some (fooRegistry, "Foo!") ∧
      ∀ g, Registry.create_type "Foo" "Foo!" g fooRegistry =
        Registry.create_type "Foo" "Foo!" (fun _ => none) fooRegistry :=
  create_type_memoized "Foo" "Foo!" (fun _ => none) fooRegistry (by decide)

/-! ## Type name algebra (embedding of `src/registry/mod.rs`, lines 16-86)

Rust string slices are embedded as lists of characters. -/

/-- Embedded string slice. -/
abbrev Str := List Char

/-- Embedding of `strip_brackets` (registry/mod.rs:16-22). The outer `Option`
is the result of `strip_prefix('[')`; the inner `none` models the panic of the
slice `rest[..rest.len() - 1]` when `rest` is empty. -/
def strip_brackets (type_name : Str) : Option (Option Str) :=
  match type_name with
  | [] => none
  | c :: rest =>
    if c = '[' then some (if rest.isEmpty then none else some rest.dropLast)
    else none

/-- Embedding of `str::strip_suffix('!')` as used by `MetaTypeName::create`. -/
def stripSuffixBang (s : Str) : Option Str :=
  if s.getLast? = some '!' then some s.dropLast else none

/-- Embedding of `MetaTypeName` (registry/mod.rs:24-29); the constructors are
lower-cased because `List` is taken in Lean. -/
inductive MetaTypeName where
  | list (inner : Str)
  | nonNull (inner : Str)
  | named (inner : Str)
deriving DecidableEq

/-- Embedding of `MetaTypeName::create` (registry/mod.rs:42-50); `none` models
the panic inherited from `strip_brackets` on the input `"["`. -/
def MetaTypeName.create (type_name : Str) : Option MetaTypeName :=
  match stripSuffixBang type_name with
  | some inner => some (.nonNull inner)
  | none =>
    match strip_brackets type_name with
    | some (some inner) => some (.list inner)
    | some none => none
    | none => some (.named type_name)

/-- Embedding of the `Display` impl for `MetaTypeName` (registry/mod.rs:31-39). -/
def MetaTypeName.display : MetaTypeName → Str
  | .named name => name
  | .nonNull name => name ++ ['!']
  | .list name => '[' :: (name ++ [']'])

/-- Printed size of a `MetaTypeName`; the fuel measure for the recursions of
`is_subtype` and `concrete_typename`. -/
def MetaTypeName.size : MetaTypeName → Nat
  | .named n => n.length
  | .nonNull n => n.length + 1
  | .list n => n.length + 2

/-- Recursion kernel of `MetaTypeName::is_subtype` (registry/mod.rs:71-85)
with explicit fuel; `none` models a panic propagated from `create` or
exhausted fuel (the wrapper below always supplies enough). -/
def isSubtypeFuel : Nat → MetaTypeName → MetaTypeName → Option Bool
  | 0, _, _ => none
  | fuel + 1, x, y =>
    match x, y with
    | .nonNull a, .nonNull b =>
      match MetaTypeName.create a, MetaTypeName.create b with
      | some a', some b' => isSubtypeFuel fuel a' b'
      | _, _ => none
    | .named a, .nonNull b =>
      match MetaTypeName.create a, MetaTypeName.create b with
      | some a', some b' => isSubtypeFuel fuel a' b'
      | _, _ => none
    | .named a, .named b => some (decide (a = b))
    | .list a, .list b =>
      match MetaTypeName.create a, MetaTypeName.create b with
      | some a', some b' => isSubtypeFuel fuel a' b'
      | _, _ => none
    | _, _ => some false

/-- Embedding of `MetaTypeName::is_subtype`: each recursion step strictly
decreases the summed printed size, so this fuel always suffices. -/
def MetaTypeName.is_subtype (x y : MetaTypeName) : Option Bool :=
  isSubtypeFuel (x.size + y.size + 1) x y

/-- Recursion kernel of `MetaTypeName::concrete_typename`
(registry/mod.rs:52-58) with explicit fuel. -/
def concreteTypenameFuel : Nat → Str → Option Str
  | 0, _ => none
  | fuel + 1, s =>
    match MetaTypeName.create s with
    | some (.list inner) => concreteTypenameFuel fuel inner
    | some (.nonNull inner) => concreteTypenameFuel fuel inner
    | some (.named n) => some n
    | none => none

/-- Embedding of `MetaTypeName::concrete_typename`: each step strictly
shrinks the string, so this fuel always suffices. -/
def MetaTypeName.concrete_typename (s : Str) : Option Str :=
  concreteTypenameFuel (s.length + 1) s

/-! ## Spec-side grammar of type reference strings (spec §3.1, §6.2)

These definitions follow the words of the spec, to be compared with the
embedded code above. -/

/-- Spec-side reference: a bare name, a non-null wrap, or a list wrap. -/
inductive TypeRef where
  | named (n : Str)
  | nonNull (t : TypeRef)
  | list (t : TypeRef)
deriving DecidableEq

/-- Wire format of a reference (spec §6.2). -/
def TypeRef.print : TypeRef → Str
  | .named n => n
  | .nonNull t => t.print ++ ['!']
  | .list t => '[' :: (t.print ++ [']'])

/-- A schema name neither begins with a bracket nor ends with a bang (names
are alphanumeric in GraphQL; only the outermost characters matter to the
parser). -/
def goodNameB (n : Str) : Bool := n.head? ≠ some '[' && n.getLast? ≠ some '!'

/-- All names inside a reference are well formed. -/
def TypeRef.goodB : TypeRef → Bool
  | .named n => goodNameB n
  | .nonNull t => t.goodB
  | .list t => t.goodB

/-- Spec-side subtype relation `super ⊒ sub` (spec §3.1):
same-name for named, congruence for non-null and list, a nullable super
accepts a non-null sub, and no other pairs. -/
def TypeRef.specSubtype : TypeRef → TypeRef → Bool
  | .named a, .named b => decide (a = b)
  | .nonNull a, .nonNull b => specSubtype a b
  | .named a, .nonNull b => specSubtype (.named a) b
  | .list a, .list b => specSubtype a b
  | _, _ => false

/-- Innermost named component of a reference (spec §3.1). -/
def TypeRef.innermostNamed : TypeRef → Str
  | .named n => n
  | .nonNull t => t.innermostNamed
  | .list t => t.innermostNamed

/-- The `MetaTypeName` value that `create` yields on a printed reference. -/
def TypeRef.reify : TypeRef → MetaTypeName
  | .named n => .named n
  | .nonNull t => .nonNull t.print
  | .list t => .list t.print

theorem create_print (t : TypeRef) (ht : t.goodB = true) :
    MetaTypeName.create t.print = some t.reify := by
  cases t with
  | named n =>
    simp only [TypeRef.goodB, goodNameB, Bool.and_eq_true, decide_eq_true_eq,
      ne_eq, decide_not, Bool.not_eq_true', decide_eq_false_iff_not] at ht
    simp only [TypeRef.print, TypeRef.reify, MetaTypeName.create, stripSuffixBang,
      ht.2, if_false]
    match n, ht with
    | [], _ => rfl
    | c :: rest, ht =>
      have hc : ¬ c = '[' := by
        intro hh
        exact ht.1 (by simp [hh])
      simp [strip_brackets, hc]
  | nonNull t =>
    simp [TypeRef.print, TypeRef.reify, MetaTypeName.create, stripSuffixBang,
      List.getLast?_concat, List.dropLast_concat]
  | list t =>
    have hlast : (('[' :: (t.print ++ [']'])) : Str).getLast? = some ']' := by
      rw [show ('[' :: (t.print ++ [']'])) = ('[' :: t.print) ++ [']'] by simp]
      exact List.getLast?_concat _
    simp [TypeRef.print, TypeRef.reify, MetaTypeName.create, stripSuffixBang,
      hlast, strip_brackets]

theorem reify_size (t : TypeRef) : t.reify.size = t.print.length := by
  cases t <;> simp [TypeRef.reify, TypeRef.print, MetaTypeName.size]

theorem isSubtypeFuel_reify :
    ∀ (fuel : Nat) (t u : TypeRef), t.goodB = true → u.goodB = true →
      t.print.length + u.print.length < fuel →
      isSubtypeFuel fuel t.reify u.reify = some (t.specSubtype u) := by
  intro fuel
  induction fuel with
  | zero => intro t u _ _ h; exact absurd h (Nat.not_lt_zero _)
  | succ fuel ih =>
    intro t u ht hu hlen
    cases t with
    | named a =>
      cases u with
      | named b =>
        simp [TypeRef.reify, isSubtypeFuel, TypeRef.specSubtype]
      | nonNull u' =>
        have hca : MetaTypeName.create a = some (.named a) :=
          create_print (.named a) ht
        have hcu : MetaTypeName.create u'.print = some u'.reify :=
          create_print u' hu
        have hrec := ih (.named a) u' ht hu (by
          simp only [TypeRef.print, List.length_append, List.length_cons,
            List.length_nil] at hlen ⊢
          omega)
        simpa [TypeRef.reify, isSubtypeFuel, hca, hcu, TypeRef.specSubtype]
          using hrec
      | list u' =>
        simp [TypeRef.reify, isSubtypeFuel, TypeRef.specSubtype]
    | nonNull t' =>
      cases u with
      | named b =>
        simp [TypeRef.reify, isSubtypeFuel, TypeRef.specSubtype]
      | nonNull u' =>
        have hct : MetaTypeName.create t'.print = some t'.reify :=
          create_print t' ht
        have hcu : MetaTypeName.create u'.print = some u'.reify :=
          create_print u' hu
        have hrec := ih t' u' ht hu (by
          simp only [TypeRef.print, List.length_append, List.length_cons,
            List.length_nil] at hlen ⊢
          omega)
        simpa [TypeRef.reify, isSubtypeFuel, hct, hcu, TypeRef.specSubtype]
          using hrec
      | list u' =>
        simp [TypeRef.reify, isSubtypeFuel, TypeRef.specSubtype]
    | list t' =>
      cases u with
      | named b =>
        simp [TypeRef.reify, isSubtypeFuel, TypeRef.specSubtype]
      | nonNull u' =>
        simp [TypeRef.reify, isSubtypeFuel, TypeRef.specSubtype]
      | list u' =>
        have hct : MetaTypeName.create t'.print = some t'.reify :=
          create_print t' ht
        have hcu : MetaTypeName.create u'.print = some u'.reify :=
          create_print u' hu
        have hrec := ih t' u' ht hu (by
          simp only [TypeRef.print, List.length_append, List.length_cons,
            List.length_nil] at hlen ⊢
          omega)
        simpa [TypeRef.reify, isSubtypeFuel, hct, hcu, TypeRef.specSubtype]
          using hrec

theorem specSubtype_refl (t : TypeRef) : t.specSubtype t = true := by
  induction t with
  | named n => simp [TypeRef.specSubtype]
  | nonNull t ih => simpa [TypeRef.specSubtype] using ih
  | list t ih => simpa [TypeRef.specSubtype] using ih

/-- C6: on well-formed type reference strings (the prints of the reference
grammar), the code's `is_subtype` applied to the parsed values agrees exactly
with the spec's relation — named vs named is name equality, non-null vs
non-null and list vs list recurse on the inner references, a named (nullable)
super accepts a non-null sub, and no other shape pair is related; consequently
the relation is reflexive and congruent under non-null and list. -/
theorem is_subtype_matches_spec (t u : TypeRef)
    (ht : t.goodB = true) (hu : u.goodB = true) :
    MetaTypeName.create t.print = some t.reify ∧
    MetaTypeName.is_subtype t.reify u.reify = some (t.specSubtype u) ∧
    t.specSubtype t = true ∧
    (TypeRef.nonNull t).specSubtype (.nonNull u) = t.specSubtype u ∧
    (TypeRef.list t).specSubtype (.list u) = t.specSubtype u ∧
    ∀ a : Str, (TypeRef.named a).specSubtype (.nonNull u) =
      (TypeRef.named a).specSubtype u := by
  refine ⟨create_print t ht, ?_, specSubtype_refl t, rfl, rfl, fun a => rfl⟩
  have hs : t.reify.size + u.reify.size + 1 =
      t.print.length + u.print.length + 1 := by
    rw [reify_size, reify_size]
  unfold MetaTypeName.is_subtype
  rw [hs]
  exact isSubtypeFuel_reify _ t u ht hu (Nat.lt_succ_self _)

/-- Witness for C6 at `super = Foo`, `sub = Foo!` (nullable super accepts the
non-null sub). -/
theorem is_subtype_matches_spec_witness :
    MetaTypeName.create (TypeRef.named ['F']).print =
        some (TypeRef.named ['F']).reify ∧
    MetaTypeName.is_subtype (TypeRef.named ['F']).reify
        (TypeRef.nonNull (.named ['F'])).reify =
      some ((TypeRef.named ['F']).specSubtype (.nonNull (.named ['F']))) ∧
    (TypeRef.named ['F']).specSubtype (.named ['F']) = true ∧
    (TypeRef.nonNull (.named ['F'])).specSubtype
        (.nonNull (.nonNull (.named ['F']))) =
      (TypeRef.named ['F']).specSubtype (.nonNull (.named ['F'])) ∧
    (TypeRef.list (.named ['F'])).specSubtype (.list (.nonNull (.named ['F']))) =
      (TypeRef.named ['F']).specSubtype (.nonNull (.named ['F'])) ∧
    ∀ a : Str, (TypeRef.named a).specSubtype (.nonNull (.nonNull (.named ['F']))) =
      (TypeRef.named a).specSubtype (.nonNull (.named ['F'])) :=
  is_subtype_matches_spec (.named ['F']) (.nonNull (.named ['F']))
    (by decide) (by decide)

theorem concreteTypenameFuel_print :
    ∀ (fuel : Nat) (t : TypeRef), t.goodB = true → t.print.length < fuel →
      concreteTypenameFuel fuel t.print = some t.innermostNamed := by
  intro fuel
  induction fuel with
  | zero => intro t _ h; exact absurd h (Nat.not_lt_zero _)
  | succ fuel ih =>
    intro t ht hlen
    cases t with
    | named n =>
      simp [concreteTypenameFuel, create_print (.named n) ht, TypeRef.reify,
        TypeRef.innermostNamed]
    | nonNull t' =>
      have := ih t' ht (by
        simp only [TypeRef.print, List.length_append, List.length_cons,
          List.length_nil] at hlen ⊢
        omega)
      simpa [concreteTypenameFuel, create_print (.nonNull t') ht, TypeRef.reify,
        TypeRef.innermostNamed] using this
    | list t' =>
      have := ih t' ht (by
        simp only [TypeRef.print, List.length_append, List.length_cons,
          List.length_nil] at hlen ⊢
        omega)
      simpa [concreteTypenameFuel, create_print (.list t') ht, TypeRef.reify,
        TypeRef.innermostNamed] using this

/-- C7: on every well-formed type reference string (a print of the reference
grammar), parsing with `create` and printing with `Display` yields the
original string again, and `concrete_typename` is the innermost named
component after stripping any chain of non-null and list modifiers. -/
theorem name_algebra_round_trip (t : TypeRef) (ht : t.goodB = true) :
    (∃ x, MetaTypeName.create t.print = some x ∧ x.display = t.print) ∧
    MetaTypeName.concrete_typename t.print = some t.innermostNamed := by
  refine ⟨⟨t.reify, create_print t ht, ?_⟩, ?_⟩
  · cases t <;> simp [TypeRef.reify, MetaTypeName.display, TypeRef.print]
  · exact concreteTypenameFuel_print (t.print.length + 1) t ht (Nat.lt_succ_self _)

/-- Witness for C7 at the reference string `[Foo!]!`. -/
theorem name_algebra_round_trip_witness :
    (∃ x, MetaTypeName.create
        (TypeRef.nonNull (.list (.nonNull (.named ['F', 'o', 'o'])))).print =
          some x ∧
      x.display = (TypeRef.nonNull (.list (.nonNull (.named ['F', 'o', 'o'])))).print) ∧
    MetaTypeName.concrete_typename
        (TypeRef.nonNull (.list (.nonNull (.named ['F', 'o', 'o'])))).print =
      some (TypeRef.nonNull (.list (.nonNull (.named ['F', 'o', 'o'])))).innermostNamed :=
  name_algebra_round_trip (.nonNull (.list (.nonNull (.named ['F', 'o', 'o']))))
    (by decide)

/-- C9 as stated is false: its second half claims that *every* input beginning
with `[` and of length at least 2 parses as a list, but the trailing-bang
check runs first, so `"[a!"` parses as `NonNull("[a")`, not as
`List("a")`. -/
theorem create_bracket_claim_counterexample :
    MetaTypeName.create ['[', 'a', '!'] = some (.nonNull ['[', 'a']) ∧
    MetaTypeName.create ['[', 'a', '!'] ≠
      some (.list (((['[', 'a', '!'] : Str).drop 1).dropLast)) := by
  constructor
  · decide
  · decide

/-- C9 amended: `create` panics on the one-character input `"["` (the
bracket-stripping slice underflows), and for every input that begins with
`[`, does **not** end with `!`, and has length at least 2, `create` returns
`List` of the input with its first and last characters removed, without
checking that the last character is `]`. -/
theorem create_bracket_behavior :
    MetaTypeName.create ['['] = none ∧
    ∀ s : Str, s.head? = some '[' → s.getLast? ≠ some '!' → 2 ≤ s.length →
      MetaTypeName.create s = some (.list ((s.drop 1).dropLast)) := by
  refine ⟨by decide, ?_⟩
  intro s hhead hlast hlen
  cases s with
  | nil => simp at hhead
  | cons c rest =>
    have hc : c = '[' := by simpa using hhead
    subst hc
    have hne : rest.isEmpty = false := by
      cases rest with
      | nil => simp at hlen
      | cons d ds => rfl
    simp [MetaTypeName.create, stripSuffixBang, hlast, strip_brackets, hne]

/-- Witness for C9 (amended) at the input `"[Foo"`, which parses as
`List("Fo")` even though it has no closing bracket. -/
theorem create_bracket_behavior_witness :
    MetaTypeName.create ['['] = none ∧
    MetaTypeName.create ['[', 'F', 'o', 'o'] = some (.list ['F', 'o']) :=
  ⟨create_bracket_behavior.1,
    create_bracket_behavior.2 ['[', 'F', 'o', 'o'] (by decide) (by decide) (by decide)⟩

/-! ## `Option<T>` input lift (embedding of `src/types/external/optional.rs`) -/

/-- Modelled from the spec: the GraphQL input value type (`Value`, an external
collaborator of the code under `src/`); its `Default` is `Null`, which is what
`value.unwrap_or_default()` relies on. Only the `Null` constructor is
inspected by the embedded code. -/
inductive Value where
  | null
  | boolean (b : Bool)
  | number (n : Int)
  | string (s : String)
  | enumValue (e : String)
  | list (xs : List Value)

instance : Inhabited Value := ⟨.null⟩

/-- Embedding of `<Option<T> as InputValueType>::parse` (optional.rs:25-32),
over an arbitrary inner parser `tParse`; the error type is opaque and
`InputValueError::propagate` preserves the error. -/
def optionParse {E T : Type} (tParse : Option Value → Except E T)
    (value : Option Value) : Except E (Option T) :=
  match value.getD Value.null with
  | .null => .ok none
  | v =>
    match tParse (some v) with
    | .ok x => .ok (some x)
    | .error e => .error e

/-- Embedding of `<Option<T> as InputValueType>::to_value` (optional.rs:34-39). -/
def optionToValue {T : Type} (tToValue : T → Value) : Option T → Value
  | some x => tToValue x
  | none => .null

/-- C10: `Option<T>::parse` returns `Ok(None)` both on an absent argument and
on an explicit `Null`, without invoking the inner parser (the statement holds
for every inner parser, so the result cannot depend on it); on any other value
it returns the inner parse mapped through `Some`, propagating the inner error;
and `to_value` maps `None` to `Null` and `Some x` to `x`'s value. -/
theorem option_parse_spec {E T : Type} (tParse : Option Value → Except E T)
    (tToValue : T → Value) (v : Value) (hv : v ≠ .null) :
    optionParse tParse none = .ok none ∧
    optionParse tParse (some .null) = .ok none ∧
    optionParse tParse (some v) = (tParse (some v)).map some ∧
    optionToValue tToValue none = .null ∧
    ∀ x, optionToValue tToValue (some x) = tToValue x := by
  refine ⟨rfl, rfl, ?_, rfl, fun x => rfl⟩
  cases v with
  | null => exact absurd rfl hv
  | boolean b =>
    cases h : tParse (some (.boolean b)) <;> simp [optionParse, Except.map, h]
  | number n =>
    cases h : tParse (some (.number n)) <;> simp [optionParse, Except.map, h]
  | string s =>
    cases h : tParse (some (.string s)) <;> simp [optionParse, Except.map, h]
  | enumValue e =>
    cases h : tParse (some (.enumValue e)) <;> simp [optionParse, Except.map, h]
  | list xs =>
    cases h : tParse (some (.list xs)) <;> simp [optionParse, Except.map, h]

/-- A concrete always-failing inner parser, for the C10 witness. -/
def failParser : Option Value → Except String Int := fun _ => .error "e"

/-- Witness for C10 with a concrete failing inner parser and a non-null
argument. -/
theorem option_parse_spec_witness :
    optionParse failParser none = .ok none ∧
    optionParse failParser (some .null) = .ok none ∧
    optionParse failParser (some (.boolean true)) =
      (failParser (some (.boolean true))).map some ∧
    optionToValue (fun n : Int => Value.number n) none = .null ∧
    ∀ x, optionToValue (fun n : Int => Value.number n) (some x) = Value.number x :=
  option_parse_spec failParser (fun n : Int => Value.number n) (.boolean true) (by simp)

/-! ## Federation (embedding of `src/registry/mod.rs`, lines 329-449) -/

/-- Embedding of `MetaType::name` (registry/mod.rs:181-190). -/
def MetaType.name : MetaType → String
  | .Scalar s => s.name
  | .Object o => o.name
  | .Interface i => i.name
  | .Union u => u.name
  | .Enum e => e.name
  | .InputObject io => io.name

/-- The predicate of `Registry::has_entities` (registry/mod.rs:330-338): an
Object or Interface whose key list is `Some` and non-empty. -/
def entityKeyed : MetaType → Bool
  | .Object o =>
    match o.keys with
    | some ks => !ks.isEmpty
    | none => false
  | .Interface i =>
    match i.keys with
    | some ks => !ks.isEmpty
    | none => false
  | _ => false

/-- Embedding of `Registry::has_entities` (registry/mod.rs:329-339). -/
def Registry.has_entities (reg : Registry) : Bool :=
  reg.types.any (fun p => entityKeyed p.2)

/-- The `filter_map` body of `create_entity_type` (registry/mod.rs:345-357). -/
def entityName : MetaType → Option String
  | .Object o =>
    match o.keys with
    | some ks => if ks.isEmpty then none else some o.name
    | none => none
  | .Interface i =>
    match i.keys with
    | some ks => if ks.isEmpty then none else some i.name
    | none => none
  | _ => none

/-- Insertion into an `IndexSet` embedded as a duplicate-free list in
insertion order: append if absent. -/
def insertSet (s : List String) (n : String) : List String :=
  if n ∈ s then s else s ++ [n]

/-- The possible-types collection of `create_entity_type`
(registry/mod.rs:342-358): `filter_map` over the catalog in iteration order,
collected into an `IndexSet` (duplicates skipped). -/
def possibleEntityTypes (m : IMap MetaType) : List String :=
  (m.filterMap (fun p => entityName p.2)).foldl insertSet []

/-- Embedding of `Registry::create_entity_type` (registry/mod.rs:341-368). -/
def Registry.create_entity_type (reg : Registry) : Registry :=
  { reg with
      types := insertIM reg.types "_Entity"
        (.Union ⟨"_Entity", none, possibleEntityTypes reg.types⟩) }

/-- The `_Any` scalar descriptor. -/
def anyScalar : MetaType := .Scalar ⟨"_Any", none⟩

/-- Modelled from the spec: `Any::create_type_info` — the `_Any` scalar type
is not under `src/`; per spec §4.2 (federation bootstrap step 1) it registers
the scalar `_Any` through `create_type`. -/
def anyCreateTypeInfo (reg : Registry) : Option (Registry × String) :=
  Registry.create_type "_Any" "_Any!" (fun r => some (r, anyScalar)) reg

/-- The `_Service` object inserted by `create_federation_types`
(registry/mod.rs:373-400). -/
def serviceType : MetaType :=
  .Object ⟨"_Service", none,
    [("sdl", ⟨"sdl", none, [], "String", none, default, false, none, none⟩)],
    default, false, none⟩

/-- The `_service` root field (registry/mod.rs:406-419). -/
def serviceField : MetaField :=
  ⟨"_service", none, [], "_Service!", none, default, false, none, none⟩

/-- The `_entities` root field (registry/mod.rs:421-447). -/
def entitiesField : MetaField :=
  ⟨"_entities", none,
    [("representations", ⟨"representations", none, "[_Any!]!", none⟩)],
    "[_Entity]!", none, default, false, none, none⟩

/-- Embedding of `Registry::create_federation_types` (registry/mod.rs:370-449).
The `none` result models the panic of `self.types.get_mut(&self.query_type)
.unwrap()` when the query root is absent from the catalog. -/
def Registry.create_federation_types (reg : Registry) : Option Registry :=
  match anyCreateTypeInfo reg with
  | none => none
  | some (reg1, _) =>
    let reg2 := { reg1 with types := insertIM reg1.types "_Service" serviceType }
    let reg3 := reg2.create_entity_type
    match lookupIM reg3.types reg3.query_type with
    | none => none
    | some (MetaType.Object o) =>
      let fields' :=
        insertIM (insertIM o.fields "_service" serviceField) "_entities" entitiesField
      match assignIM reg3.types reg3.query_type (.Object { o with fields := fields' }) with
      | none => none
      | some ts => some { reg3 with types := ts }
    | some _ => some reg3

/-- Modelled from the spec: the federation bootstrap wrapper (spec §2, §4.2).
The schema builder — not under `src/` — invokes `create_federation_types`
exactly when some registered type carries non-empty keys. -/
def federationBootstrap (reg : Registry) : Option Registry :=
  if reg.has_entities then reg.create_federation_types else some reg

theorem insertIM_fresh_append {α : Type} (m : IMap α) (k : String) (v : α)
    (h : containsKey m k = false) : insertIM m k v = m ++ [(k, v)] := by
  induction m with
  | nil => rfl
  | cons p rest ih =>
    simp only [containsKey, List.any_cons, Bool.or_eq_false_iff] at h
    have hk : ¬ p.1 = k := by simpa using h.1
    simp [insertIM, hk, ih (by simpa [containsKey] using h.2)]

theorem assignIM_append_last {α : Type} (m : IMap α) (k : String) (v w : α)
    (h : containsKey m k = false) :
    assignIM (m ++ [(k, v)]) k w = some (m ++ [(k, w)]) := by
  induction m with
  | nil => simp [assignIM]
  | cons p rest ih =>
    simp only [containsKey, List.any_cons, Bool.or_eq_false_iff] at h
    have hk : ¬ p.1 = k := by simpa using h.1
    simp [assignIM, hk, ih (by simpa [containsKey] using h.2)]

theorem create_type_const_fresh (n q : String) (ty : MetaType) (reg : Registry)
    (h : containsKey reg.types n = false) :
    Registry.create_type n q (fun r => some (r, ty)) reg =
      some ({ reg with types := reg.types ++ [(n, ty)] }, q) := by
  simp only [Registry.create_type, h, Bool.false_eq_true, if_false,
    insertIM_fresh_append reg.types n placeholderType h]
  rw [assignIM_append_last reg.types n placeholderType ty h]

theorem containsKey_append {α : Type} (l l' : IMap α) (k : String) :
    containsKey (l ++ l') k = (containsKey l k || containsKey l' k) := by
  simp [containsKey]

theorem lookupIM_append_left {α : Type} (l l' : IMap α) (k : String)
    (h : containsKey l k = true) : lookupIM (l ++ l') k = lookupIM l k := by
  induction l with
  | nil => simp [containsKey] at h
  | cons p rest ih =>
    by_cases hk : p.1 = k
    · simp [lookupIM, hk]
    · have : containsKey rest k = true := by simpa [containsKey, hk] using h
      simp [lookupIM, hk, ih this]

theorem lookupIM_append_right {α : Type} (l l' : IMap α) (k : String)
    (h : containsKey l k = false) : lookupIM (l ++ l') k = lookupIM l' k := by
  induction l with
  | nil => simp
  | cons p rest ih =>
    simp only [containsKey, List.any_cons, Bool.or_eq_false_iff] at h
    have hk : ¬ p.1 = k := by simpa using h.1
    simp [lookupIM, hk, ih (by simpa [containsKey] using h.2)]

theorem containsKey_assignIM {α : Type} (m m' : IMap α) (k : String) (v : α)
    (h : assignIM m k v = some m') (k' : String) :
    containsKey m' k' = containsKey m k' := by
  induction m generalizing m' with
  | nil => simp [assignIM] at h
  | cons p rest ih =>
    by_cases hk : p.1 = k
    · simp only [assignIM, hk, if_true, Option.some_inj] at h
      subst h
      simp [containsKey, hk]
    · simp only [assignIM, hk, if_false, Option.map_eq_some'] at h
      obtain ⟨m'', hm'', rfl⟩ := h
      have hrec := ih m'' hm''
      simp only [containsKey, List.any_cons] at hrec ⊢
      rw [hrec]

theorem mem_foldl_insertSet (l : List String) (acc : List String) (n : String) :
    n ∈ l.foldl insertSet acc ↔ n ∈ acc ∨ n ∈ l := by
  induction l generalizing acc with
  | nil => simp
  | cons x xs ih =>
    rw [List.foldl_cons, ih]
    unfold insertSet
    by_cases hx : x ∈ acc
    · simp only [hx, if_true, List.mem_cons]
      constructor
      · rintro (h | h)
        · exact Or.inl h
        · exact Or.inr (Or.inr h)
      · rintro (h | h | h)
        · exact Or.inl h
        · exact Or.inl (h ▸ hx)
        · exact Or.inr h
    · simp only [hx, if_false, List.mem_append, List.mem_singleton, List.mem_cons]
      tauto

theorem lookupIM_eq_some_iff_mem {α : Type} (m : IMap α) (k : String) (v : α)
    (hnodup : (keysIM m).Nodup) : lookupIM m k = some v ↔ (k, v) ∈ m := by
  induction m with
  | nil => simp [lookupIM]
  | cons p rest ih =>
    simp only [keysIM, List.map_cons, List.nodup_cons] at hnodup
    by_cases hk : p.1 = k
    · subst hk
      simp only [lookupIM, if_true, Option.some_inj, List.mem_cons]
      constructor
      · rintro rfl
        exact Or.inl (Prod.ext rfl rfl)
      · rintro (h | h)
        · exact (congrArg Prod.snd h).symm
        · exact absurd (List.mem_map_of_mem Prod.fst h) (by simpa [keysIM] using hnodup.1)
    · simp only [lookupIM, hk, if_false, List.mem_cons]
      rw [ih (by simpa [keysIM] using hnodup.2)]
      constructor
      · exact Or.inr
      · rintro (h | h)
        · exact absurd (congrArg Prod.fst h).symm hk
        · exact h

theorem entityName_eq (ty : MetaType) :
    entityName ty = if entityKeyed ty then some ty.name else none := by
  cases ty with
  | Object o =>
    cases h : o.keys with
    | none => simp [entityName, entityKeyed, h, MetaType.name]
    | some ks =>
      by_cases hks : ks.isEmpty <;>
        simp [entityName, entityKeyed, h, hks, MetaType.name]
  | Interface i =>
    cases h : i.keys with
    | none => simp [entityName, entityKeyed, h, MetaType.name]
    | some ks =>
      by_cases hks : ks.isEmpty <;>
        simp [entityName, entityKeyed, h, hks, MetaType.name]
  | Union u => simp [entityName, entityKeyed]
  | Scalar s => simp [entityName, entityKeyed]
  | Enum e => simp [entityName, entityKeyed]
  | InputObject io => simp [entityName, entityKeyed]

theorem lookupIM_eq_none_of_not_containsKey {α : Type} (m : IMap α) (k : String)
    (h : containsKey m k = false) : lookupIM m k = none := by
  induction m with
  | nil => rfl
  | cons p rest ih =>
    simp only [containsKey, List.any_cons, Bool.or_eq_false_iff] at h
    have hk : ¬ p.1 = k := by simpa using h.1
    simp [lookupIM, hk, ih (by simpa [containsKey] using h.2)]

theorem lookupIM_append_singleton_ne {α : Type} (m : IMap α) (k k' : String) (v : α)
    (h : ¬ k = k') : lookupIM (m ++ [(k', v)]) k = lookupIM m k := by
  have hkk : ¬ k' = k := fun hh => h hh.symm
  induction m with
  | nil =>
    simp [lookupIM, hkk]
  | cons p rest ih =>
    by_cases hk : p.1 = k <;> simp [lookupIM, hk, ih]

theorem create_federation_types_spec (reg : Registry)
    (h0 : containsKey reg.types "_Any" = false)
    (h1 : containsKey reg.types "_Service" = false)
    (h2 : containsKey reg.types "_Entity" = false)
    (hroot : containsKey reg.types reg.query_type = true) :
    ∃ reg', reg.create_federation_types = some reg' ∧
      containsKey reg'.types "_Service" = true ∧
      containsKey reg'.types "_Entity" = true ∧
      lookupIM reg'.types "_Entity" =
        some (.Union ⟨"_Entity", none, possibleEntityTypes reg.types⟩) := by
  obtain ⟨rootTy, hrootTy⟩ := lookupIM_isSome_of_containsKey reg.types reg.query_type hroot
  have hqE : ¬ ("_Entity" : String) = reg.query_type := by
    intro hh
    rw [← hh] at hroot
    rw [hroot] at h2
    simp at h2
  have hany := create_type_const_fresh "_Any" "_Any!" anyScalar reg h0
  have hsvcF : containsKey (reg.types ++ [("_Any", anyScalar)]) "_Service" = false := by
    rw [containsKey_append, h1]
    decide
  have hT2 : insertIM (reg.types ++ [("_Any", anyScalar)]) "_Service" serviceType =
      (reg.types ++ [("_Any", anyScalar)]) ++ [("_Service", serviceType)] :=
    insertIM_fresh_append _ _ _ hsvcF
  have hentF :
      containsKey ((reg.types ++ [("_Any", anyScalar)]) ++ [("_Service", serviceType)])
        "_Entity" = false := by
    rw [containsKey_append, containsKey_append, h2]
    decide
  have hpts :
      possibleEntityTypes ((reg.types ++ [("_Any", anyScalar)]) ++ [("_Service", serviceType)]) =
        possibleEntityTypes reg.types := by
    unfold possibleEntityTypes
    rw [List.filterMap_append, List.filterMap_append]
    have ha : List.filterMap (fun p : String × MetaType => entityName p.2)
        [("_Any", anyScalar)] = [] := by decide
    have hs : List.filterMap (fun p : String × MetaType => entityName p.2)
        [("_Service", serviceType)] = [] := by decide
    rw [ha, hs, List.append_nil, List.append_nil]
  have hT3 : insertIM ((reg.types ++ [("_Any", anyScalar)]) ++ [("_Service", serviceType)])
      "_Entity" (.Union ⟨"_Entity", none, possibleEntityTypes reg.types⟩) =
      ((reg.types ++ [("_Any", anyScalar)]) ++ [("_Service", serviceType)]) ++
        [("_Entity", .Union ⟨"_Entity", none, possibleEntityTypes reg.types⟩)] :=
    insertIM_fresh_append _ _ _ hentF
  have hcT1 : containsKey (reg.types ++ [("_Any", anyScalar)]) reg.query_type = true := by
    rw [containsKey_append, hroot]
    rfl
  have hcT2 :
      containsKey ((reg.types ++ [("_Any", anyScalar)]) ++ [("_Service", serviceType)])
        reg.query_type = true := by
    rw [containsKey_append, hcT1]
    rfl
  have hlookT3 :
      lookupIM (((reg.types ++ [("_Any", anyScalar)]) ++ [("_Service", serviceType)]) ++
        [("_Entity", .Union ⟨"_Entity", none, possibleEntityTypes reg.types⟩)])
        reg.query_type = some rootTy := by
    rw [lookupIM_append_left _ _ _ hcT2, lookupIM_append_left _ _ _ hcT1,
      lookupIM_append_left _ _ _ hroot]
    exact hrootTy
  have hlookE :
      lookupIM (((reg.types ++ [("_Any", anyScalar)]) ++ [("_Service", serviceType)]) ++
        [("_Entity", .Union ⟨"_Entity", none, possibleEntityTypes reg.types⟩)])
        "_Entity" =
        some (.Union ⟨"_Entity", none, possibleEntityTypes reg.types⟩) := by
    rw [lookupIM_append_right _ _ _ hentF]
    simp [lookupIM]
  have hcE :
      containsKey (((reg.types ++ [("_Any", anyScalar)]) ++ [("_Service", serviceType)]) ++
        [("_Entity", .Union ⟨"_Entity", none, possibleEntityTypes reg.types⟩)])
        "_Entity" = true := by
    rw [containsKey_append, hentF]
    simp [containsKey]
  have hcS :
      containsKey (((reg.types ++ [("_Any", anyScalar)]) ++ [("_Service", serviceType)]) ++
        [("_Entity", .Union ⟨"_Entity", none, possibleEntityTypes reg.types⟩)])
        "_Service" = true := by
    rw [containsKey_append, containsKey_append, containsKey_append, h1]
    simp [containsKey]
  cases rootTy with
  | Object o =>
    have hcQ :
        containsKey (((reg.types ++ [("_Any", anyScalar)]) ++ [("_Service", serviceType)]) ++
          [("_Entity", .Union ⟨"_Entity", none, possibleEntityTypes reg.types⟩)])
          reg.query_type = true := by
      rw [containsKey_append, hcT2]
      rfl
    obtain ⟨ts, hts⟩ := assignIM_isSome_of_containsKey _ reg.query_type (MetaType.Object { o with fields := insertIM (insertIM o.fields "_service" serviceField) "_entities" entitiesField }) hcQ
    refine ⟨{ reg with types := ts }, ?_, ?_, ?_, ?_⟩
    · simp only [Registry.create_federation_types, anyCreateTypeInfo, hany,
        Registry.create_entity_type, hT2, hpts, hT3, hlookT3, hts]
    · rw [containsKey_assignIM _ _ _ _ hts]
      exact hcS
    · rw [containsKey_assignIM _ _ _ _ hts]
      exact hcE
    · rw [lookupIM_assignIM_ne _ _ _ _ _ hts hqE]
      exact hlookE
  | Scalar s =>
    refine ⟨{ reg with types := ((reg.types ++ [("_Any", anyScalar)]) ++ [("_Service", serviceType)]) ++ [("_Entity", .Union ⟨"_Entity", none, possibleEntityTypes reg.types⟩)] }, ?_, hcS, hcE, hlookE⟩
    simp only [Registry.create_federation_types, anyCreateTypeInfo, hany,
      Registry.create_entity_type, hT2, hpts, hT3, hlookT3]
  | Interface i =>
    refine ⟨{ reg with types := ((reg.types ++ [("_Any", anyScalar)]) ++ [("_Service", serviceType)]) ++ [("_Entity", .Union ⟨"_Entity", none, possibleEntityTypes reg.types⟩)] }, ?_, hcS, hcE, hlookE⟩
    simp only [Registry.create_federation_types, anyCreateTypeInfo, hany,
      Registry.create_entity_type, hT2, hpts, hT3, hlookT3]
  | Union u =>
    refine ⟨{ reg with types := ((reg.types ++ [("_Any", anyScalar)]) ++ [("_Service", serviceType)]) ++ [("_Entity", .Union ⟨"_Entity", none, possibleEntityTypes reg.types⟩)] }, ?_, hcS, hcE, hlookE⟩
    simp only [Registry.create_federation_types, anyCreateTypeInfo, hany,
      Registry.create_entity_type, hT2, hpts, hT3, hlookT3]
  | Enum e =>
    refine ⟨{ reg with types := ((reg.types ++ [("_Any", anyScalar)]) ++ [("_Service", serviceType)]) ++ [("_Entity", .Union ⟨"_Entity", none, possibleEntityTypes reg.types⟩)] }, ?_, hcS, hcE, hlookE⟩
    simp only [Registry.create_federation_types, anyCreateTypeInfo, hany,
      Registry.create_entity_type, hT2, hpts, hT3, hlookT3]
  | InputObject io =>
    refine ⟨{ reg with types := ((reg.types ++ [("_Any", anyScalar)]) ++ [("_Service", serviceType)]) ++ [("_Entity", .Union ⟨"_Entity", none, possibleEntityTypes reg.types⟩)] }, ?_, hcS, hcE, hlookE⟩
    simp only [Registry.create_federation_types, anyCreateTypeInfo, hany,
      Registry.create_entity_type, hT2, hpts, hT3, hlookT3]

theorem mem_possibleEntityTypes (m : IMap MetaType)
    (hwf : ∀ p ∈ m, MetaType.name p.2 = p.1)
    (hnodup : (keysIM m).Nodup) (n : String) :
    n ∈ possibleEntityTypes m ↔
      ∃ ty, lookupIM m n = some ty ∧ entityKeyed ty = true := by
  unfold possibleEntityTypes
  rw [mem_foldl_insertSet]
  simp only [List.not_mem_nil, false_or, List.mem_filterMap]
  constructor
  · rintro ⟨p, hp, hpn⟩
    rw [entityName_eq] at hpn
    by_cases hk : entityKeyed p.2 = true
    · rw [if_pos hk] at hpn
      have hname : MetaType.name p.2 = n := by simpa using hpn
      have hkey : p.1 = n := by rw [← hwf p hp, hname]
      refine ⟨p.2, ?_, hk⟩
      rw [lookupIM_eq_some_iff_mem m n p.2 hnodup]
      have hpe : p = (n, p.2) := by
        cases p
        simp only at hkey ⊢
        rw [hkey]
      rw [← hpe]
      exact hp
    · rw [if_neg hk] at hpn
      simp at hpn
  · rintro ⟨ty, hlook, hk⟩
    have hmem : (n, ty) ∈ m := (lookupIM_eq_some_iff_mem m n ty hnodup).1 hlook
    refine ⟨(n, ty), hmem, ?_⟩
    rw [entityName_eq]
    have hname := hwf (n, ty) hmem
    simp only at hname hk ⊢
    rw [if_pos hk, hname]

/-- C4: after federation bootstrap of a well-formed registry (descriptor names
match their catalog keys, keys are duplicate-free, the federation names are
not yet taken, and the query root is registered), the catalog holds entries
named `_Service` and `_Entity` iff at least one registered Object or Interface
has a `Some`, non-empty keys list; and in that case `_Entity` is a Union whose
possible types are exactly the set of names of those Objects and Interfaces. -/
theorem federation_bootstrap_consistent (reg : Registry)
    (h0 : containsKey reg.types "_Any" = false)
    (h1 : containsKey reg.types "_Service" = false)
    (h2 : containsKey reg.types "_Entity" = false)
    (hroot : containsKey reg.types reg.query_type = true)
    (hwf : ∀ p ∈ reg.types, MetaType.name p.2 = p.1)
    (hnodup : (keysIM reg.types).Nodup) :
    ∃ reg', federationBootstrap reg = some reg' ∧
      (reg.has_entities = true ↔ ∃ p ∈ reg.types, entityKeyed p.2 = true) ∧
      ((containsKey reg'.types "_Service" = true ∧ containsKey reg'.types "_Entity" = true) ↔
        reg.has_entities = true) ∧
      (reg.has_entities = true →
        ∃ pts, lookupIM reg'.types "_Entity" = some (.Union ⟨"_Entity", none, pts⟩) ∧
          ∀ n, n ∈ pts ↔ ∃ ty, lookupIM reg.types n = some ty ∧ entityKeyed ty = true) := by
  have hchar : reg.has_entities = true ↔ ∃ p ∈ reg.types, entityKeyed p.2 = true := by
    simp [Registry.has_entities, List.any_eq_true]
  cases hent : reg.has_entities with
  | false =>
    refine ⟨reg, by simp [federationBootstrap, hent], by rw [← hent]; exact hchar, ?_, ?_⟩
    · simp only [Bool.false_eq_true, iff_false, not_and]
      intro hS
      exact absurd hS (by simp [h1])
    · intro h
      simp at h
  | true =>
    obtain ⟨reg', hfed, hS, hE, hU⟩ := create_federation_types_spec reg h0 h1 h2 hroot
    refine ⟨reg', by simp [federationBootstrap, hent, hfed],
      ⟨fun _ => hchar.1 hent, fun _ => rfl⟩, ?_, ?_⟩
    · simp [hS, hE]
    · intro _
      exact ⟨possibleEntityTypes reg.types, hU,
        fun n => mem_possibleEntityTypes reg.types hwf hnodup n⟩

/-- The `User` entity of the federation scenario (spec §8.5). -/
def userType : MetaType :=
  .Object ⟨"User", none,
    [("id", ⟨"id", none, [], "ID!", none, default, false, none, none⟩)],
    default, false, some ["id"]⟩

/-- The `Product` entity of the federation scenario (spec §8.5). -/
def productType : MetaType :=
  .Object ⟨"Product", none,
    [("sku", ⟨"sku", none, [], "String!", none, default, false, none, none⟩)],
    default, false, some ["sku"]⟩

/-- The query root of the federation scenario (spec §8.5). -/
def queryRootType : MetaType :=
  .Object ⟨"Query", none,
    [("me", ⟨"me", none, [], "User", none, default, false, none, none⟩)],
    default, false, none⟩

/-- The registry of the federation scenario (spec §8.5). -/
def federationRegistry : Registry :=
  ⟨[("User", userType), ("Product", productType), ("Query", queryRootType)],
    [], [], "Query", none, none⟩

/-- Witness for C4 at the spec's federation scenario: `User` and `Product`
carry keys, the query root is an Object. -/
theorem federation_bootstrap_consistent_witness :
    ∃ reg', federationBootstrap federationRegistry = some reg' ∧
      (federationRegistry.has_entities = true ↔
        ∃ p ∈ federationRegistry.types, entityKeyed p.2 = true) ∧
      ((containsKey reg'.types "_Service" = true ∧ containsKey reg'.types "_Entity" = true) ↔
        federationRegistry.has_entities = true) ∧
      (federationRegistry.has_entities = true →
        ∃ pts, lookupIM reg'.types "_Entity" = some (.Union ⟨"_Entity", none, pts⟩) ∧
          ∀ n, n ∈ pts ↔
            ∃ ty, lookupIM federationRegistry.types n = some ty ∧ entityKeyed ty = true) :=
  federation_bootstrap_consistent federationRegistry (by decide) (by decide) (by decide)
    (by decide) (by decide) (by decide)

/-- A registry whose query-root name (`Query`) has no entry in the catalog. -/
def rootlessRegistry : Registry :=
  ⟨[("Foo", .Scalar ⟨"Foo", none⟩)], [], [], "Query", none, none⟩

/-- C5 as stated is false: on a registry whose query root is absent,
`create_federation_types` does not complete — it hits the
`self.types.get_mut(&self.query_type).unwrap()` at registry/mod.rs:404 and
panics (modelled by the `none` result). -/
theorem create_federation_types_rootless_panic :
    Registry.create_federation_types rootlessRegistry = none := by decide

/-- C5 amended: the root fields `_service` and `_entities` are inserted only
when the entry named by `query_type` exists and is an Object. When the entry
exists but is not an Object, the operation completes without panicking and
adds no fields to any type (every catalog entry other than the three inserted
federation types `_Any`, `_Service`, `_Entity` is unchanged). When the entry
is absent, the `unwrap` of the root lookup panics. The federation names are
assumed not yet taken and distinct from the root name, as during bootstrap. -/
theorem create_federation_types_root_guard (reg : Registry)
    (h0 : containsKey reg.types "_Any" = false)
    (h1 : containsKey reg.types "_Service" = false)
    (h2 : containsKey reg.types "_Entity" = false)
    (hqA : ¬ reg.query_type = "_Any")
    (hqS : ¬ reg.query_type = "_Service")
    (hqE : ¬ reg.query_type = "_Entity") :
    (containsKey reg.types reg.query_type = false → reg.create_federation_types = none) ∧
    (∀ ty, lookupIM reg.types reg.query_type = some ty → (∀ o, ty ≠ .Object o) →
      ∃ reg', reg.create_federation_types = some reg' ∧
        ∀ k, ¬ k = "_Any" → ¬ k = "_Service" → ¬ k = "_Entity" →
          lookupIM reg'.types k = lookupIM reg.types k) ∧
    (∀ o, lookupIM reg.types reg.query_type = some (.Object o) →
      ∃ reg', reg.create_federation_types = some reg' ∧
        lookupIM reg'.types reg.query_type = some (.Object { o with fields := insertIM (insertIM o.fields "_service" serviceField) "_entities" entitiesField }) ∧
        ∀ k, ¬ k = "_Any" → ¬ k = "_Service" → ¬ k = "_Entity" → ¬ k = reg.query_type →
          lookupIM reg'.types k = lookupIM reg.types k) := by
  have hany := create_type_const_fresh "_Any" "_Any!" anyScalar reg h0
  have hsvcF : containsKey (reg.types ++ [("_Any", anyScalar)]) "_Service" = false := by
    rw [containsKey_append, h1]
    decide
  have hT2 : insertIM (reg.types ++ [("_Any", anyScalar)]) "_Service" serviceType =
      (reg.types ++ [("_Any", anyScalar)]) ++ [("_Service", serviceType)] :=
    insertIM_fresh_append _ _ _ hsvcF
  have hentF :
      containsKey ((reg.types ++ [("_Any", anyScalar)]) ++ [("_Service", serviceType)])
        "_Entity" = false := by
    rw [containsKey_append, containsKey_append, h2]
    decide
  have hpts :
      possibleEntityTypes ((reg.types ++ [("_Any", anyScalar)]) ++ [("_Service", serviceType)]) =
        possibleEntityTypes reg.types := by
    unfold possibleEntityTypes
    rw [List.filterMap_append, List.filterMap_append]
    have ha : List.filterMap (fun p : String × MetaType => entityName p.2)
        [("_Any", anyScalar)] = [] := by decide
    have hs : List.filterMap (fun p : String × MetaType => entityName p.2)
        [("_Service", serviceType)] = [] := by decide
    rw [ha, hs, List.append_nil, List.append_nil]
  have hT3 : insertIM ((reg.types ++ [("_Any", anyScalar)]) ++ [("_Service", serviceType)])
      "_Entity" (.Union ⟨"_Entity", none, possibleEntityTypes reg.types⟩) =
      ((reg.types ++ [("_Any", anyScalar)]) ++ [("_Service", serviceType)]) ++
        [("_Entity", .Union ⟨"_Entity", none, possibleEntityTypes reg.types⟩)] :=
    insertIM_fresh_append _ _ _ hentF
  have hlook3 : ∀ k, ¬ k = "_Any" → ¬ k = "_Service" → ¬ k = "_Entity" →
      lookupIM (((reg.types ++ [("_Any", anyScalar)]) ++ [("_Service", serviceType)]) ++
        [("_Entity", .Union ⟨"_Entity", none, possibleEntityTypes reg.types⟩)]) k =
      lookupIM reg.types k := by
    intro k hkA hkS hkE
    rw [lookupIM_append_singleton_ne _ _ _ _ hkE, lookupIM_append_singleton_ne _ _ _ _ hkS,
      lookupIM_append_singleton_ne _ _ _ _ hkA]
  refine ⟨?_, ?_, ?_⟩
  · intro habs
    have hnone :
        lookupIM (((reg.types ++ [("_Any", anyScalar)]) ++ [("_Service", serviceType)]) ++
          [("_Entity", .Union ⟨"_Entity", none, possibleEntityTypes reg.types⟩)])
          reg.query_type = none := by
      rw [hlook3 reg.query_type hqA hqS hqE]
      exact lookupIM_eq_none_of_not_containsKey _ _ habs
    simp only [Registry.create_federation_types, anyCreateTypeInfo, hany,
      Registry.create_entity_type, hT2, hpts, hT3, hnone]
  · intro ty hlookQ hno
    have hcontQ : containsKey reg.types reg.query_type = true :=
      containsKey_of_lookupIM _ _ _ hlookQ
    have hlookT3 :
        lookupIM (((reg.types ++ [("_Any", anyScalar)]) ++ [("_Service", serviceType)]) ++
          [("_Entity", .Union ⟨"_Entity", none, possibleEntityTypes reg.types⟩)])
          reg.query_type = some ty := by
      rw [hlook3 reg.query_type hqA hqS hqE]
      exact hlookQ
    cases ty with
    | Object o => exact absurd rfl (hno o)
    | Scalar s =>
      refine ⟨{ reg with types := ((reg.types ++ [("_Any", anyScalar)]) ++ [("_Service", serviceType)]) ++ [("_Entity", .Union ⟨"_Entity", none, possibleEntityTypes reg.types⟩)] }, ?_, hlook3⟩
      simp only [Registry.create_federation_types, anyCreateTypeInfo, hany,
        Registry.create_entity_type, hT2, hpts, hT3, hlookT3]
    | Interface i =>
      refine ⟨{ reg with types := ((reg.types ++ [("_Any", anyScalar)]) ++ [("_Service", serviceType)]) ++ [("_Entity", .Union ⟨"_Entity", none, possibleEntityTypes reg.types⟩)] }, ?_, hlook3⟩
      simp only [Registry.create_federation_types, anyCreateTypeInfo, hany,
        Registry.create_entity_type, hT2, hpts, hT3, hlookT3]
    | Union u =>
      refine ⟨{ reg with types := ((reg.types ++ [("_Any", anyScalar)]) ++ [("_Service", serviceType)]) ++ [("_Entity", .Union ⟨"_Entity", none, possibleEntityTypes reg.types⟩)] }, ?_, hlook3⟩
      simp only [Registry.create_federation_types, anyCreateTypeInfo, hany,
        Registry.create_entity_type, hT2, hpts, hT3, hlookT3]
    | Enum e =>
      refine ⟨{ reg with types := ((reg.types ++ [("_Any", anyScalar)]) ++ [("_Service", serviceType)]) ++ [("_Entity", .Union ⟨"_Entity", none, possibleEntityTypes reg.types⟩)] }, ?_, hlook3⟩
      simp only [Registry.create_federation_types, anyCreateTypeInfo, hany,
        Registry.create_entity_type, hT2, hpts, hT3, hlookT3]
    | InputObject io =>
      refine ⟨{ reg with types := ((reg.types ++ [("_Any", anyScalar)]) ++ [("_Service", serviceType)]) ++ [("_Entity", .Union ⟨"_Entity", none, possibleEntityTypes reg.types⟩)] }, ?_, hlook3⟩
      simp only [Registry.create_federation_types, anyCreateTypeInfo, hany,
        Registry.create_entity_type, hT2, hpts, hT3, hlookT3]
  · intro o hlookQ
    have hcontQ : containsKey reg.types reg.query_type = true :=
      containsKey_of_lookupIM _ _ _ hlookQ
    have hlookT3 :
        lookupIM (((reg.types ++ [("_Any", anyScalar)]) ++ [("_Service", serviceType)]) ++
          [("_Entity", .Union ⟨"_Entity", none, possibleEntityTypes reg.types⟩)])
          reg.query_type = some (.Object o) := by
      rw [hlook3 reg.query_type hqA hqS hqE]
      exact hlookQ
    have hcQ :
        containsKey (((reg.types ++ [("_Any", anyScalar)]) ++ [("_Service", serviceType)]) ++
          [("_Entity", .Union ⟨"_Entity", none, possibleEntityTypes reg.types⟩)])
          reg.query_type = true := by
      rw [containsKey_append, containsKey_append, containsKey_append, hcontQ]
      rfl
    obtain ⟨ts, hts⟩ := assignIM_isSome_of_containsKey _ reg.query_type (MetaType.Object { o with fields := insertIM (insertIM o.fields "_service" serviceField) "_entities" entitiesField }) hcQ
    refine ⟨{ reg with types := ts }, ?_, ?_, ?_⟩
    · simp only [Registry.create_federation_types, anyCreateTypeInfo, hany,
        Registry.create_entity_type, hT2, hpts, hT3, hlookT3, hts]
    · exact lookupIM_assignIM_self _ _ _ _ hts
    · intro k hkA hkS hkE hkQ
      rw [lookupIM_assignIM_ne _ _ _ _ _ hts hkQ]
      exact hlook3 k hkA hkS hkE

/-- Witness for C5 (amended): a registry whose root entry exists but is a
Scalar — federation completes and no catalog entry other than the three
federation insertions changes; and the panic conclusion at the rootless
registry is exercised by the counterexample theorem. -/
theorem create_federation_types_root_guard_witness :
    (containsKey fooRegistry.types fooRegistry.query_type = false →
      fooRegistry.create_federation_types = none) ∧
    (∀ ty, lookupIM fooRegistry.types fooRegistry.query_type = some ty →
      (∀ o, ty ≠ .Object o) →
      ∃ reg', fooRegistry.create_federation_types = some reg' ∧
        ∀ k, ¬ k = "_Any" → ¬ k = "_Service" → ¬ k = "_Entity" →
          lookupIM reg'.types k = lookupIM fooRegistry.types k) ∧
    (∀ o, lookupIM fooRegistry.types fooRegistry.query_type = some (.Object o) →
      ∃ reg', fooRegistry.create_federation_types = some reg' ∧
        lookupIM reg'.types fooRegistry.query_type = some (.Object { o with fields := insertIM (insertIM o.fields "_service" serviceField) "_entities" entitiesField }) ∧
        ∀ k, ¬ k = "_Any" → ¬ k = "_Service" → ¬ k = "_Entity" →
          ¬ k = fooRegistry.query_type →
          lookupIM reg'.types k = lookupIM fooRegistry.types k) :=
  create_federation_types_root_guard fooRegistry (by decide) (by decide) (by decide)
    (by decide) (by decide) (by decide)

/-! ## Merged objects (embedding of `derive/src/merged_object.rs` plus the
spec-modelled chain combinator) -/

/-- A source Object of a merged object: its GraphQL name and field map. -/
structure SrcObj where
  name : String
  fields : IMap MetaField
deriving DecidableEq

/-- Registration of a plain source Object through `create_type` with a
constant builder — the shape the derive layer generates for ordinary
objects. -/
def srcCreateTypeInfo (s : SrcObj) (reg : Registry) : Option (Registry × String) :=
  Registry.create_type s.name (s.name ++ "!") (fun r => some (r, .Object ⟨s.name, none, s.fields, default, false, none⟩)) reg

/-- Modelled from the spec: the catalog name of the right-associated chain
`MergedObject<S₁, MergedObject<…, MergedObjectTail>>` (§4.4). The combinator
types are not under `src/`; only the name's role as a catalog key matters. -/
def chainName : List SrcObj → String
  | [] => "MergedObjectTail"
  | s :: rest => s.name ++ "_" ++ chainName rest

/-- The concatenated field map of a chain (spec §4.4: the merged field map is
the concatenation of each source's field map in order). -/
def chainFields : List SrcObj → IMap MetaField
  | [] => []
  | s :: rest => s.fields ++ chainFields rest

/-- Modelled from the spec: `create_type_info` of the chain
`MergedObject<S₁, MergedObject<…, MergedObjectTail>>` (§4.4) — the combinator
types are not under `src/`. Registering the chain transitively registers each
source (pairwise, head first) and interns an Object whose field map is the
head's fields followed by the rest of the chain's; `MergedObjectTail` is the
identity object with no fields. -/
def chainCreateTypeInfo : List SrcObj → Registry → Option (Registry × String)
  | [], reg =>
    Registry.create_type (chainName []) (chainName [] ++ "!") (fun r => some (r, .Object ⟨chainName [], none, chainFields [], default, false, none⟩)) reg
  | s :: rest, reg =>
    Registry.create_type (chainName (s :: rest)) (chainName (s :: rest) ++ "!") (fun r => (srcCreateTypeInfo s r).bind (fun p => (chainCreateTypeInfo rest p.1).bind (fun q => some (q.1, MetaType.Object ⟨chainName (s :: rest), none, s.fields ++ chainFields rest, default, false, none⟩)))) reg

/-- The descriptor the derive-generated builder returns
(derive/src/merged_object.rs:67-86): fields and cache-control are read back
from the freshly registered chain's catalog entry, defaulting when the entry
is missing or not an Object. -/
def mergedDescriptor (mName : String) (desc : Option String) (ext : Bool)
    (ss : List SrcObj) (r : Registry) : MetaType :=
  match lookupIM r.types (chainName ss) with
  | some (MetaType.Object o) => .Object ⟨mName, desc, o.fields, o.cache_control, ext, none⟩
  | _ => .Object ⟨mName, desc, [], default, ext, none⟩

/-- Embedding of the generated `create_type_info` for a `MergedObject` struct
(derive/src/merged_object.rs:63-88): inside `create_type`, register the chain,
then intern the merged object under its own GraphQL name with the chain's
fields and cache control and its own description and extends flag. -/
def mergedCreateTypeInfo (mName : String) (desc : Option String) (ext : Bool)
    (ss : List SrcObj) (reg : Registry) : Option (Registry × String) :=
  Registry.create_type mName (mName ++ "!") (fun r => (chainCreateTypeInfo ss r).bind (fun p => some (p.1, mergedDescriptor mName desc ext ss p.1))) reg

theorem containsKey_insertIM_self {α : Type} (m : IMap α) (k : String) (v : α) :
    containsKey (insertIM m k v) k = true :=
  containsKey_of_lookupIM _ _ _ (lookupIM_insertIM_self m k v)

theorem create_type_preserves_lookup (name qual : String)
    (f : Registry → Option (Registry × MetaType)) (reg : Registry)
    (k : String) (v : MetaType)
    (hf : ∀ r r' ty, f r = some (r', ty) → lookupIM r.types k = some v →
      lookupIM r'.types k = some v)
    (h : lookupIM reg.types k = some v) :
    ∀ r' s, Registry.create_type name qual f reg = some (r', s) →
      lookupIM r'.types k = some v := by
  intro r' s hct
  by_cases hc : containsKey reg.types name = true
  · simp only [Registry.create_type, hc, if_true, Option.some_inj, Prod.mk.injEq] at hct
    rw [← hct.1]
    exact h
  · have hcf : containsKey reg.types name = false := by
      simpa using hc
    have hkne : ¬ k = name := by
      intro hh
      rw [hh] at h
      rw [containsKey_of_lookupIM _ _ _ h] at hcf
      simp at hcf
    simp only [Registry.create_type, hcf, Bool.false_eq_true, if_false] at hct
    cases hf1 : f { reg with types := insertIM reg.types name placeholderType } with
    | none =>
      simp only [hf1] at hct
      exact Option.noConfusion hct
    | some p =>
      obtain ⟨reg2, ty⟩ := p
      simp only [hf1] at hct
      have h2 : lookupIM reg2.types k = some v := by
        refine hf _ reg2 ty hf1 ?_
        show lookupIM (insertIM reg.types name placeholderType) k = some v
        rw [lookupIM_insertIM_ne _ _ _ _ hkne]
        exact h
      cases hassign : assignIM reg2.types name ty with
      | none =>
        simp only [hassign] at hct
        exact Option.noConfusion hct
      | some ts =>
        simp only [hassign, Option.some_inj, Prod.mk.injEq] at hct
        rw [← hct.1]
        show lookupIM ts k = some v
        rw [lookupIM_assignIM_ne _ _ _ _ _ hassign hkne]
        exact h2

theorem srcCreateTypeInfo_preserves (s : SrcObj) (reg : Registry) (k : String)
    (v : MetaType) (h : lookupIM reg.types k = some v) (r' : Registry) (q : String)
    (hs : srcCreateTypeInfo s reg = some (r', q)) : lookupIM r'.types k = some v :=
  create_type_preserves_lookup s.name (s.name ++ "!") _ reg k v
    (fun r r2 ty hf hl => by
      simp only [Option.some_inj, Prod.mk.injEq] at hf
      rw [← hf.1]
      exact hl) h r' q hs

theorem chainCreateTypeInfo_preserves :
    ∀ (ss : List SrcObj) (reg : Registry) (k : String) (v : MetaType),
      lookupIM reg.types k = some v → ∀ r' q, chainCreateTypeInfo ss reg = some (r', q) →
        lookupIM r'.types k = some v := by
  intro ss
  induction ss with
  | nil =>
    intro reg k v h r' q hc
    exact create_type_preserves_lookup _ _ _ reg k v
      (fun r r2 ty hf hl => by
        simp only [Option.some_inj, Prod.mk.injEq] at hf
        rw [← hf.1]
        exact hl) h r' q hc
  | cons s rest ih =>
    intro reg k v h r' q hc
    refine create_type_preserves_lookup _ _ _ reg k v ?_ h r' q hc
    intro r r2 ty hf hl
    cases hsrc : srcCreateTypeInfo s r with
    | none =>
      rw [hsrc, Option.none_bind] at hf
      exact Option.noConfusion hf
    | some p =>
      rw [hsrc, Option.some_bind] at hf
      cases hch : chainCreateTypeInfo rest p.1 with
      | none =>
        rw [hch, Option.none_bind] at hf
        exact Option.noConfusion hf
      | some p2 =>
        rw [hch, Option.some_bind] at hf
        simp only [Option.some_inj, Prod.mk.injEq] at hf
        rw [← hf.1]
        have hl1 : lookupIM p.1.types k = some v :=
          srcCreateTypeInfo_preserves s r k v hl p.1 p.2 (by rw [hsrc])
        exact ih p.1 k v hl1 p2.1 p2.2 (by rw [hch])

theorem srcCreateTypeInfo_total (s : SrcObj) (reg : Registry) :
    ∃ r' q, srcCreateTypeInfo s reg = some (r', q) := by
  unfold srcCreateTypeInfo
  by_cases hc : containsKey reg.types s.name = true
  · exact ⟨reg, s.name ++ "!", by simp [Registry.create_type, hc]⟩
  · have hcf : containsKey reg.types s.name = false := by simpa using hc
    obtain ⟨ts, hts⟩ := assignIM_isSome_of_containsKey
      (insertIM reg.types s.name placeholderType) s.name
      (MetaType.Object ⟨s.name, none, s.fields, default, false, none⟩)
      (containsKey_insertIM_self _ _ _)
    refine ⟨{ reg with types := ts }, s.name ++ "!", ?_⟩
    simp only [Registry.create_type, hcf, Bool.false_eq_true, if_false, hts]

theorem chainCreateTypeInfo_total :
    ∀ (ss : List SrcObj) (reg : Registry), ∃ r' q, chainCreateTypeInfo ss reg = some (r', q) := by
  intro ss
  induction ss with
  | nil =>
    intro reg
    by_cases hc : containsKey reg.types (chainName []) = true
    · exact ⟨reg, chainName [] ++ "!", by simp [chainCreateTypeInfo, Registry.create_type, hc]⟩
    · have hcf : containsKey reg.types (chainName []) = false := by simpa using hc
      obtain ⟨ts, hts⟩ := assignIM_isSome_of_containsKey
        (insertIM reg.types (chainName []) placeholderType) (chainName [])
        (MetaType.Object ⟨chainName [], none, chainFields [], default, false, none⟩)
        (containsKey_insertIM_self _ _ _)
      refine ⟨{ reg with types := ts }, chainName [] ++ "!", ?_⟩
      simp only [chainCreateTypeInfo, Registry.create_type, hcf, Bool.false_eq_true,
        if_false, hts]
  | cons s rest ih =>
    intro reg
    by_cases hc : containsKey reg.types (chainName (s :: rest)) = true
    · exact ⟨reg, chainName (s :: rest) ++ "!",
        by simp [chainCreateTypeInfo, Registry.create_type, hc]⟩
    · have hcf : containsKey reg.types (chainName (s :: rest)) = false := by simpa using hc
      obtain ⟨r1, q1, hsrc⟩ := srcCreateTypeInfo_total s
        { reg with types := insertIM reg.types (chainName (s :: rest)) placeholderType }
      obtain ⟨r2, q2, hch⟩ := ih r1
      have hpl : lookupIM r2.types (chainName (s :: rest)) = some placeholderType := by
        have h1 : lookupIM (insertIM reg.types (chainName (s :: rest)) placeholderType)
            (chainName (s :: rest)) = some placeholderType :=
          lookupIM_insertIM_self _ _ _
        have h2 := srcCreateTypeInfo_preserves s _ _ _ h1 r1 q1 hsrc
        exact chainCreateTypeInfo_preserves rest r1 _ _ h2 r2 q2 hch
      obtain ⟨ts, hts⟩ := assignIM_isSome_of_containsKey r2.types (chainName (s :: rest))
        (MetaType.Object ⟨chainName (s :: rest), none, s.fields ++ chainFields rest,
          default, false, none⟩)
        (containsKey_of_lookupIM _ _ _ hpl)
      refine ⟨{ r2 with types := ts }, chainName (s :: rest) ++ "!", ?_⟩
      simp only [chainCreateTypeInfo, Registry.create_type, hcf, Bool.false_eq_true,
        if_false, hsrc, Option.some_bind, hch, hts]

theorem chainCreateTypeInfo_registers (ss : List SrcObj) (reg : Registry)
    (hfresh : containsKey reg.types (chainName ss) = false) :
    ∃ r', chainCreateTypeInfo ss reg = some (r', chainName ss ++ "!") ∧
      lookupIM r'.types (chainName ss) =
        some (.Object ⟨chainName ss, none, chainFields ss, default, false, none⟩) := by
  cases ss with
  | nil =>
    have h := create_type_const_fresh (chainName []) (chainName [] ++ "!")
      (MetaType.Object ⟨chainName [], none, chainFields [], default, false, none⟩) reg hfresh
    refine ⟨{ reg with types := reg.types ++ [(chainName [], MetaType.Object ⟨chainName [], none, chainFields [], default, false, none⟩)] }, ?_, ?_⟩
    · exact h
    · show lookupIM (reg.types ++ [(chainName [], MetaType.Object ⟨chainName [], none, chainFields [], default, false, none⟩)]) (chainName []) = _
      rw [lookupIM_append_right _ _ _ hfresh]
      simp [lookupIM]
  | cons s rest =>
    obtain ⟨r1, q1, hsrc⟩ := srcCreateTypeInfo_total s
      { reg with types := insertIM reg.types (chainName (s :: rest)) placeholderType }
    obtain ⟨r2, q2, hch⟩ := chainCreateTypeInfo_total rest r1
    have hpl : lookupIM r2.types (chainName (s :: rest)) = some placeholderType := by
      have h1 : lookupIM (insertIM reg.types (chainName (s :: rest)) placeholderType)
          (chainName (s :: rest)) = some placeholderType :=
        lookupIM_insertIM_self _ _ _
      have h2 := srcCreateTypeInfo_preserves s _ _ _ h1 r1 q1 hsrc
      exact chainCreateTypeInfo_preserves rest r1 _ _ h2 r2 q2 hch
    obtain ⟨ts, hts⟩ := assignIM_isSome_of_containsKey r2.types (chainName (s :: rest))
      (MetaType.Object ⟨chainName (s :: rest), none, s.fields ++ chainFields rest,
        default, false, none⟩)
      (containsKey_of_lookupIM _ _ _ hpl)
    refine ⟨{ r2 with types := ts }, ?_, ?_⟩
    · simp only [chainCreateTypeInfo, Registry.create_type, hfresh, Bool.false_eq_true,
        if_false, hsrc, Option.some_bind, hch, hts]
    · show lookupIM ts (chainName (s :: rest)) = _
      rw [lookupIM_assignIM_self _ _ _ _ hts]
      rfl

theorem chainFields_eq_flatten (ss : List SrcObj) :
    chainFields ss = (ss.map (fun s => s.fields)).flatten := by
  induction ss with
  | nil => rfl
  | cons s rest ih => simp [chainFields, ih]

/-- C3: registering a merged object `M` declared over the ordered source tuple
`(S₁, …, Sₙ)` interns an Object whose field map is exactly the concatenation
of the sources' field maps in declaration order (the derive-generated builder
reads it back from the freshly registered chain), provided `M`'s name and the
chain's catalog name are fresh and distinct. -/
theorem merged_object_fields_concat (mName : String) (desc : Option String) (ext : Bool)
    (ss : List SrcObj) (reg : Registry)
    (hm : containsKey reg.types mName = false)
    (hc : containsKey reg.types (chainName ss) = false)
    (hne : ¬ chainName ss = mName) :
    ∃ r', mergedCreateTypeInfo mName desc ext ss reg = some (r', mName ++ "!") ∧
      lookupIM r'.types mName =
        some (.Object ⟨mName, desc, chainFields ss, default, ext, none⟩) ∧
      chainFields ss = (ss.map (fun s => s.fields)).flatten := by
  have hjoin := chainFields_eq_flatten ss
  have hne' : ¬ mName = chainName ss := fun hh => hne hh.symm
  have hc1 : containsKey (insertIM reg.types mName placeholderType) (chainName ss) = false := by
    rw [insertIM_fresh_append _ _ _ hm, containsKey_append, hc]
    simp [containsKey, hne']
  obtain ⟨rc, hrc, hlookc⟩ := chainCreateTypeInfo_registers ss
    { reg with types := insertIM reg.types mName placeholderType } hc1
  have hplM : lookupIM rc.types mName = some placeholderType := by
    have h1 : lookupIM (insertIM reg.types mName placeholderType) mName = some placeholderType :=
      lookupIM_insertIM_self _ _ _
    exact chainCreateTypeInfo_preserves ss _ _ _ h1 rc _ hrc
  obtain ⟨ts, hts⟩ := assignIM_isSome_of_containsKey rc.types mName
    (mergedDescriptor mName desc ext ss rc) (containsKey_of_lookupIM _ _ _ hplM)
  have hdesc : mergedDescriptor mName desc ext ss rc =
      .Object ⟨mName, desc, chainFields ss, default, ext, none⟩ := by
    unfold mergedDescriptor
    rw [hlookc]
  refine ⟨{ rc with types := ts }, ?_, ?_, hjoin⟩
  · simp only [mergedCreateTypeInfo, Registry.create_type, hm, Bool.false_eq_true,
      if_false, hrc, Option.some_bind, hts]
  · show lookupIM ts mName = _
    rw [lookupIM_assignIM_self _ _ _ _ hts, hdesc]

/-- The source object `A { a1, a2 }` of the merged-object scenario (spec §8.3). -/
def srcA : SrcObj :=
  ⟨"A", [("a1", ⟨"a1", none, [], "Int", none, default, false, none, none⟩),
    ("a2", ⟨"a2", none, [], "Int", none, default, false, none, none⟩)]⟩

/-- The source object `B { b1 }` of the merged-object scenario (spec §8.3). -/
def srcB : SrcObj :=
  ⟨"B", [("b1", ⟨"b1", none, [], "Int", none, default, false, none, none⟩)]⟩

/-- Witness for C3 at `M = merge(A { a1, a2 }, B { b1 })` in the empty
registry: the merged fields iterate as `a1, a2, b1`. -/
theorem merged_object_fields_concat_witness :
    (∃ r', mergedCreateTypeInfo "M" none false [srcA, srcB] emptyRegistry =
        some (r', "M" ++ "!") ∧
      lookupIM r'.types "M" =
        some (.Object ⟨"M", none, chainFields [srcA, srcB], default, false, none⟩) ∧
      chainFields [srcA, srcB] = ([srcA, srcB].map (fun s => s.fields)).flatten) ∧
    keysIM (chainFields [srcA, srcB]) = ["a1", "a2", "b1"] :=
  ⟨merged_object_fields_concat "M" none false [srcA, srcB] emptyRegistry
    (by decide) (by decide) (by decide), by decide⟩

/-! ## Connection edges (embedding of `src/types/connection/edge.rs`) -/

/-- A type parameter of `Edge` as the registry sees it: a GraphQL type name
and a registration effect (`create_type_info`, returning the qualified
reference string). The cursor parameter `C` plays no role in
`create_type_info` and is not represented. -/
structure TypeDesc where
  type_name : String
  create_type_info : Registry → Option (Registry × String)

/-- Modelled from the spec: `String::create_type_info` — the built-in `String`
scalar is not under `src/`; it registers the `String` scalar through
`create_type` and returns the qualified reference `String!` (spec §4.4 gives
the cursor field the reference `String!`). -/
def stringCreateTypeInfo (reg : Registry) : Option (Registry × String) :=
  Registry.create_type "String" "String!" (fun r => some (r, .Scalar ⟨"String", none⟩)) reg

/-- Embedding of `<Edge<C, T, E> as Type>::type_name` (edge.rs:49-51). -/
def edgeTypeName (tName : String) : String := tName ++ "Edge"

/-- The `node` field (edge.rs:71-84); its type reference is the string
returned by `T::create_type_info`. -/
def nodeField (tQual : String) : MetaField :=
  ⟨"node", some "The item at the end of the edge", [], tQual, none, default, false, none, none⟩

/-- The `cursor` field (edge.rs:86-99); its type reference is the string
returned by `String::create_type_info`. -/
def cursorField (sQual : String) : MetaField :=
  ⟨"cursor", some "A cursor for use in pagination", [], sQual, none, default, false, none, none⟩

/-- The `additional_fields` read-back (edge.rs:55-63): the fields of `E`'s
catalog entry; `unreachable!` (modelled `none`) when the entry is missing or
not an Object. -/
def edgeAdditional (E : TypeDesc) (r : Registry) : Option (IMap MetaField) :=
  match lookupIM r.types E.type_name with
  | some (MetaType.Object o) => some o.fields
  | _ => none

/-- Embedding of `<Edge<C, T, E> as Type>::create_type_info` (edge.rs:53-109):
inside `create_type`, register `E` and read its field map back from the
catalog, then build the `"{T}Edge"` Object by inserting `node` (registering
`T` for its reference), inserting `cursor` (registering `String`), and
appending `E`'s fields through `IndexMap::extend`. -/
def edgeCreateTypeInfo (T E : TypeDesc) (reg : Registry) : Option (Registry × String) :=
  Registry.create_type (edgeTypeName T.type_name) (edgeTypeName T.type_name ++ "!") (fun r => (E.create_type_info r).bind (fun pe => (edgeAdditional E pe.1).bind (fun aFields => (T.create_type_info pe.1).bind (fun pt => (stringCreateTypeInfo pt.1).bind (fun ps => some (ps.1, MetaType.Object ⟨edgeTypeName T.type_name, some "An edge in a connection.", extendIM (insertIM (insertIM [] "node" (nodeField pt.2)) "cursor" (cursorField ps.2)) aFields, default, false, none⟩)))))) reg

theorem not_key_of_not_containsKey {α : Type} (m : IMap α) (k : String)
    (h : containsKey m k = false) : ∀ p ∈ m, ¬ p.1 = k := by
  intro p hp hpk
  have : containsKey m k = true := by
    simp only [containsKey, List.any_eq_true]
    exact ⟨p, hp, by simp [hpk]⟩
  rw [this] at h
  simp at h

theorem extendIM_append {α : Type} (l : IMap α) :
    ∀ base : IMap α, (∀ p ∈ l, containsKey base p.1 = false) →
      (keysIM l).Nodup → extendIM base l = base ++ l := by
  induction l with
  | nil =>
    intro base _ _
    simp [extendIM]
  | cons p rest ih =>
    intro base hfresh hnodup
    obtain ⟨k, v⟩ := p
    simp only [keysIM, List.map_cons, List.nodup_cons] at hnodup
    have hb : insertIM base k v = base ++ [(k, v)] :=
      insertIM_fresh_append _ _ _ (hfresh (k, v) (List.mem_cons_self _ _))
    have hfresh' : ∀ q ∈ rest, containsKey (base ++ [(k, v)]) q.1 = false := by
      intro q hq
      rw [containsKey_append]
      have h1 : containsKey base q.1 = false := hfresh q (List.mem_cons_of_mem _ hq)
      have h2 : ¬ k = q.1 := by
        intro hh
        exact hnodup.1 (hh ▸ List.mem_map_of_mem (fun r => r.1) hq)
      rw [h1]
      simp [containsKey, h2]
    have hrec := ih (base ++ [(k, v)]) hfresh' (by simpa [keysIM] using hnodup.2)
    show extendIM base ((k, v) :: rest) = base ++ (k, v) :: rest
    unfold extendIM at hrec ⊢
    rw [List.foldl_cons]
    show List.foldl (fun acc p => insertIM acc p.1 p.2) (insertIM base k v) rest = _
    rw [hb, hrec, List.append_assoc]
    rfl

/-- C8 amended: registering `Edge<C, T, E>` interns an Object named
`"{T}Edge"` whose fields iterate as the `node` field typed with the reference
`T::create_type_info` returned, then `cursor` typed with the reference
`String::create_type_info` returned (`String!`), then all of `E`'s fields in
declared order — **provided** none of `E`'s fields is named `node` or
`cursor`; a colliding `E` field overwrites the synthesized entry in place
(`IndexMap::extend`) instead of being appended. The hypotheses describe the
intermediate registries produced by the registrations of `E`, `T`, and
`String`, and that they keep the edge's placeholder key. -/
theorem edge_create_type_info_fields (T E : TypeDesc) (reg rE rT rS : Registry)
    (qE tQual sQual : String) (eo : MetaObject)
    (hfresh : containsKey reg.types (edgeTypeName T.type_name) = false)
    (hE : E.create_type_info { reg with types := insertIM reg.types (edgeTypeName T.type_name) placeholderType } = some (rE, qE))
    (hEf : lookupIM rE.types E.type_name = some (.Object eo))
    (hT : T.create_type_info rE = some (rT, tQual))
    (hS : stringCreateTypeInfo rT = some (rS, sQual))
    (hkeep : containsKey rS.types (edgeTypeName T.type_name) = true)
    (hnode : containsKey eo.fields "node" = false)
    (hcursor : containsKey eo.fields "cursor" = false)
    (hnodup : (keysIM eo.fields).Nodup) :
    ∃ r', edgeCreateTypeInfo T E reg = some (r', edgeTypeName T.type_name ++ "!") ∧
      lookupIM r'.types (edgeTypeName T.type_name) = some (.Object ⟨edgeTypeName T.type_name, some "An edge in a connection.", [("node", nodeField tQual), ("cursor", cursorField sQual)] ++ eo.fields, default, false, none⟩) := by
  have hadd : edgeAdditional E rE = some eo.fields := by
    unfold edgeAdditional
    rw [hEf]
  have hext : extendIM (insertIM (insertIM [] "node" (nodeField tQual)) "cursor" (cursorField sQual)) eo.fields = [("node", nodeField tQual), ("cursor", cursorField sQual)] ++ eo.fields := by
    have hbase : insertIM (insertIM [] "node" (nodeField tQual)) "cursor" (cursorField sQual) = [("node", nodeField tQual), ("cursor", cursorField sQual)] := by
      simp [insertIM]
    rw [hbase]
    refine extendIM_append eo.fields _ ?_ hnodup
    intro p hp
    have h1 := not_key_of_not_containsKey eo.fields "node" hnode p hp
    have h2 := not_key_of_not_containsKey eo.fields "cursor" hcursor p hp
    have h1' : ¬ ("node" : String) = p.1 := fun hh => h1 hh.symm
    have h2' : ¬ ("cursor" : String) = p.1 := fun hh => h2 hh.symm
    simp [containsKey, h1', h2']
  obtain ⟨ts, hts⟩ := assignIM_isSome_of_containsKey rS.types (edgeTypeName T.type_name) (MetaType.Object ⟨edgeTypeName T.type_name, some "An edge in a connection.", [("node", nodeField tQual), ("cursor", cursorField sQual)] ++ eo.fields, default, false, none⟩) hkeep
  refine ⟨{ rS with types := ts }, ?_, ?_⟩
  · simp only [edgeCreateTypeInfo, Registry.create_type, hfresh, Bool.false_eq_true,
      if_false, hE, Option.some_bind, hadd, hT, hS, hext, hts]
  · show lookupIM ts (edgeTypeName T.type_name) = _
    rw [lookupIM_assignIM_self _ _ _ _ hts]

/-- The node type `Foo` of the edge scenario (spec §8.6), with a trivial
registration effect returning the reference `Foo`. -/
def fooDesc : TypeDesc := ⟨"Foo", fun r => some (r, "Foo")⟩

/-- The `score: Int!` extension field of the edge scenario (spec §8.6). -/
def scoreField : MetaField := ⟨"score", none, [], "Int!", none, default, false, none, none⟩

/-- The extension object `E = { score: Int! }` of the edge scenario. -/
def edgeExtObj : MetaObject := ⟨"EdgeFields", none, [("score", scoreField)], default, false, none⟩

/-- The extension type descriptor, with a trivial registration effect (the
object is pre-registered in `edgeRegistry`). -/
def edgeExtDesc : TypeDesc := ⟨"EdgeFields", fun r => some (r, "EdgeFields!")⟩

/-- A registry holding the pre-registered extension object and the `String`
scalar. -/
def edgeRegistry : Registry :=
  ⟨[("EdgeFields", .Object edgeExtObj), ("String", .Scalar ⟨"String", none⟩)],
    [], [], "Query", none, none⟩

/-- Witness for C8 (amended) at `T = Foo`, `E = { score: Int! }`: the edge
object `FooEdge` iterates as `node: Foo`, `cursor: String!`, `score: Int!`. -/
theorem edge_create_type_info_fields_witness :
    ∃ r', edgeCreateTypeInfo fooDesc edgeExtDesc edgeRegistry =
        some (r', edgeTypeName fooDesc.type_name ++ "!") ∧
      lookupIM r'.types (edgeTypeName fooDesc.type_name) = some (.Object ⟨edgeTypeName fooDesc.type_name, some "An edge in a connection.", [("node", nodeField "Foo"), ("cursor", cursorField "String!")] ++ edgeExtObj.fields, default, false, none⟩) :=
  edge_create_type_info_fields fooDesc edgeExtDesc edgeRegistry
    { edgeRegistry with types := insertIM edgeRegistry.types "FooEdge" placeholderType }
    { edgeRegistry with types := insertIM edgeRegistry.types "FooEdge" placeholderType }
    { edgeRegistry with types := insertIM edgeRegistry.types "FooEdge" placeholderType }
    "EdgeFields!" "Foo" "String!" edgeExtObj
    (by decide) (by decide) (by decide) (by decide) (by decide) (by decide)
    (by decide) (by decide) (by decide)

/-- An extension object that itself declares a field named `cursor`. -/
def cursorExtObj : MetaObject :=
  ⟨"CursorExt", none,
    [("cursor", ⟨"cursor", none, [], "Int!", none, default, false, none, none⟩)],
    default, false, none⟩

/-- Type descriptor of the colliding extension object. -/
def cursorExtDesc : TypeDesc := ⟨"CursorExt", fun r => some (r, "CursorExt!")⟩

/-- A registry holding the colliding extension object and the `String`
scalar. -/
def cursorEdgeRegistry : Registry :=
  ⟨[("CursorExt", .Object cursorExtObj), ("String", .Scalar ⟨"String", none⟩)],
    [], [], "Query", none, none⟩

/-- C8 as stated is false: when the extension object `E` itself declares a
field named `cursor`, `IndexMap::extend` overwrites the synthesized
`cursor: String!` entry in place, so the registered edge object's field map is
`node` then `E`'s `cursor: Int!` — not `node`, `cursor: String!`, followed by
`E`'s fields as the claim requires for every `E`. -/
theorem edge_fields_claim_counterexample :
    (edgeCreateTypeInfo fooDesc cursorExtDesc cursorEdgeRegistry).bind (fun p => lookupIM p.1.types "FooEdge") = some (.Object ⟨"FooEdge", some "An edge in a connection.", [("node", nodeField "Foo"), ("cursor", ⟨"cursor", none, [], "Int!", none, default, false, none, none⟩)], default, false, none⟩) ∧
    ¬ (edgeCreateTypeInfo fooDesc cursorExtDesc cursorEdgeRegistry).bind (fun p => lookupIM p.1.types "FooEdge") = some (.Object ⟨"FooEdge", some "An edge in a connection.", [("node", nodeField "Foo"), ("cursor", cursorField "String!"), ("cursor", ⟨"cursor", none, [], "Int!", none, default, false, none, none⟩)], default, false, none⟩) := by
  refine ⟨?_, ?_⟩
  · decide
  · decide

end AsyncGraphql
